import Mathlib

/-!
Verification development for the bash2gitlab compilation engine.

The Python sources are shallowly embedded over `List Char` strings:
`compile_all.py` (env-file parsing, script extraction, script-list
inlining, variable merging, top-level key reordering),
`utils/parse_bash.py` (the safe reference parser and its shlex-based
tokenizer), `commands/compile_artifacts.py` (artifact pragma parsing,
zip packaging and extraction shims), and
`commands/hash_path_helpers.py` (centralized hash-file paths).
-/

set_option maxRecDepth 10000

/-- Strings are modelled as lists of characters. -/
abbrev Str := List Char

/-- The single-quote character, `chr 39`. -/
def squoteChar : Char := Char.ofNat 39

/-- Python whitespace for `str.strip` / `str.isspace` and for the `\s`
class of the `re` module (ASCII range; the embedding does not model the
extra Unicode space characters). -/
def pyWS (c : Char) : Bool :=
  c == ' ' || c == '\t' || c == '\n' || c == '\r' || c == '\x0b' || c == '\x0c'

/-- `str.strip()` with no arguments: trim Python whitespace on both ends. -/
def pyStrip (s : Str) : Str :=
  ((s.dropWhile pyWS).reverse.dropWhile pyWS).reverse

/-- `str.lstrip(chars)`: drop leading characters belonging to `chars`. -/
def pyLstripSet (chars : List Char) (s : Str) : Str :=
  s.dropWhile (fun c => chars.contains c)

/-- `str.isspace()`: nonempty and all characters are whitespace. -/
def pyIsSpaceStr (s : Str) : Bool :=
  !s.isEmpty && s.all pyWS

/-- Line-break characters recognized by Python `str.splitlines`
(besides the two-character sequence `"\r\n"`). -/
def pyLineBreak (c : Char) : Bool :=
  c == '\n' || c == '\r' || c == '\x0b' || c == '\x0c' ||
  c == '\x1c' || c == '\x1d' || c == '\x1e' || c == '\x85' ||
  c == ' ' || c == ' '

/-- Worker for `splitlinesPy`; `cur` holds the current line reversed. -/
def splitlinesAux : Str → Str → List Str
  | [], cur => if cur.isEmpty then [] else [cur.reverse]
  | '\r' :: '\n' :: rest, cur => cur.reverse :: splitlinesAux rest []
  | c :: rest, cur =>
    if pyLineBreak c then cur.reverse :: splitlinesAux rest []
    else splitlinesAux rest (c :: cur)

/-- `str.splitlines()`. -/
def splitlinesPy (s : Str) : List Str :=
  splitlinesAux s []

/-- `str.replace(a, b)` for single characters. -/
def replaceChar (a b : Char) (s : Str) : Str :=
  s.map (fun c => if c == a then b else c)

/-- `str.lower()` (ASCII). -/
def lowerStr (s : Str) : Str :=
  s.map Char.toLower

/-- Decimal rendering of a natural number. -/
def natToStr (n : Nat) : Str :=
  Nat.toDigits 10 n

/-- Join path components with `/` separators. -/
def strInter : List Str → Str
  | [] => []
  | [c] => c
  | c :: rest => c ++ '/' :: strInter rest

/-- Split a string on `/` characters. -/
def splitSlash : Str → List Str
  | [] => [[]]
  | c :: rest =>
    if c = '/' then [] :: splitSlash rest
    else
      match splitSlash rest with
      | [] => [[c]]
      | p :: ps => (c :: p) :: ps

/-- A `pathlib` pure path: an absolute-path flag plus the parsed
components (spurious slashes and single-dot components are collapsed at
parse time, as `pathlib` does; the `//` double-root special case is not
modelled). -/
structure PyPath where
  absolute : Bool
  comps : List Str
deriving DecidableEq, Repr

/-- `pathlib.Path(s)`: parse a string into a pure path. -/
def parsePath (s : Str) : PyPath :=
  { absolute := s.head? == some '/'
    comps := (splitSlash s).filter (fun c => !c.isEmpty && c ≠ ['.']) }

/-- `str(path)` for a pure posix path. -/
def pathStr (p : PyPath) : Str :=
  if p.absolute then '/' :: strInter p.comps
  else if p.comps.isEmpty then ['.'] else strInter p.comps

/-- `path.name`: the final component (empty for a path with no
components). -/
def pathName (p : PyPath) : Str :=
  (p.comps.getLast?).getD []

/-- Index of the last `.` in a name, if any (`str.rfind`). -/
def rfindDot : Str → Option Nat
  | [] => none
  | c :: rest =>
    match rfindDot rest with
    | some i => some (i + 1)
    | none => if c = '.' then some 0 else none

/-- `pathlib` suffix of a file name: the part from the last dot, unless
the dot is leading or trailing. -/
def nameSuffix (n : Str) : Str :=
  match rfindDot n with
  | none => []
  | some i => if 0 < i ∧ i < n.length - 1 then n.drop i else []

/-- `path.suffix`. -/
def pathSuffix (p : PyPath) : Str :=
  nameSuffix (pathName p)

/-- `path.with_suffix(suffix)`: replace the suffix of the final
component; raises (models `ValueError`) on an invalid suffix or an
empty name. -/
def pyWithSuffix (p : PyPath) (suffix : Str) : Except Str PyPath :=
  if suffix.contains '/' then .error ("Invalid suffix ".toList ++ suffix)
  else if !suffix.isEmpty && (suffix.head? ≠ some '.' || suffix = ['.']) then
    .error ("Invalid suffix ".toList ++ suffix)
  else
    let n := pathName p
    if n.isEmpty then .error ("empty name".toList)
    else
      let old := nameSuffix n
      let newName := (if old.isEmpty then n else n.take (n.length - old.length)) ++ suffix
      .ok { p with comps := p.comps.dropLast ++ [newName] }

/-- `path.relative_to(base)`: strip `base` as a component-wise leading
part, or fail (models the `ValueError` branch). -/
def relativeTo (p base : PyPath) : Option PyPath :=
  if p.absolute = base.absolute ∧ base.comps.isPrefixOf p.comps then
    some { absolute := false, comps := p.comps.drop base.comps.length }
  else none

/-- The `/` operator on paths. -/
def joinPath (a b : PyPath) : PyPath :=
  if b.absolute then b else { absolute := a.absolute, comps := a.comps ++ b.comps }

/-- Collapse `..` components left to right (a leading `..` at the root
is dropped), as lexical `Path.resolve` does. -/
def normUpComps (cs : List Str) : List Str :=
  cs.foldl (fun acc c =>
    if c = ['.', '.'] then acc.dropLast
    else if c.isEmpty || c = ['.'] then acc
    else acc ++ [c]) []

/-- `path.resolve()` modelled lexically: make the path absolute against
the working directory `cwd` and collapse `..` segments (symbolic links
are not modelled). -/
def pyResolve (cwd : List Str) (p : PyPath) : PyPath :=
  { absolute := true
    comps := normUpComps (if p.absolute then p.comps else cwd ++ p.comps) }

/-- Lexer state for the `shlex` embedding. -/
inductive LexSt
  | ws | word | inSq | inDq | escWord | escDq
deriving DecidableEq, Repr

/-- `shlex` whitespace: space, tab, carriage return, newline. -/
def shlexWS (c : Char) : Bool :=
  c == ' ' || c == '\t' || c == '\r' || c == '\n'

/-- `instream.readline()` after a comment character: discard input up
to and including the next newline. -/
def skipLine (cs : Str) : Str :=
  match cs.dropWhile (fun c => c != '\n') with
  | [] => []
  | _ :: rest => rest

/-- The posix `shlex` tokenizer with `whitespace_split` enabled.
`esc` enables the backslash escape character (inside double quotes a
backslash escapes only a backslash or a double quote and is otherwise
kept); `com` enables `#` comments.  Returns `none` on a lexing error
(unbalanced quote or trailing escape).  `fuel` bounds the recursion;
every step consumes at least one input character, so `length + 1`
always suffices. -/
def shlexCore (esc com : Bool) :
    Nat → Str → LexSt → Str → Bool → List Str → Option (List Str)
  | 0, _, _, _, _, _ => none
  | _ + 1, [], st, tok, quoted, acc =>
    match st with
    | .ws => some acc
    | .word => if !tok.isEmpty || quoted then some (acc ++ [tok]) else some acc
    | _ => none
  | fuel + 1, c :: rest, st, tok, quoted, acc =>
    match st with
    | .ws =>
      if shlexWS c then
        if !tok.isEmpty || quoted then shlexCore esc com fuel rest .ws [] false (acc ++ [tok])
        else shlexCore esc com fuel rest .ws tok quoted acc
      else if com && c == '#' then shlexCore esc com fuel (skipLine rest) .ws tok quoted acc
      else if esc && c == '\\' then shlexCore esc com fuel rest .escWord tok quoted acc
      else if c == squoteChar then shlexCore esc com fuel rest .inSq tok quoted acc
      else if c == '"' then shlexCore esc com fuel rest .inDq tok quoted acc
      else shlexCore esc com fuel rest .word (tok ++ [c]) quoted acc
    | .word =>
      if shlexWS c then
        if !tok.isEmpty || quoted then shlexCore esc com fuel rest .ws [] false (acc ++ [tok])
        else shlexCore esc com fuel rest .ws [] false acc
      else if com && c == '#' then
        if !tok.isEmpty || quoted then
          shlexCore esc com fuel (skipLine rest) .ws [] false (acc ++ [tok])
        else shlexCore esc com fuel (skipLine rest) .ws [] false acc
      else if c == squoteChar then shlexCore esc com fuel rest .inSq tok true acc
      else if c == '"' then shlexCore esc com fuel rest .inDq tok true acc
      else if esc && c == '\\' then shlexCore esc com fuel rest .escWord tok quoted acc
      else shlexCore esc com fuel rest .word (tok ++ [c]) quoted acc
    | .inSq =>
      if c == squoteChar then shlexCore esc com fuel rest .word tok true acc
      else shlexCore esc com fuel rest .inSq (tok ++ [c]) true acc
    | .inDq =>
      if c == '"' then shlexCore esc com fuel rest .word tok true acc
      else if esc && c == '\\' then shlexCore esc com fuel rest .escDq tok true acc
      else shlexCore esc com fuel rest .inDq (tok ++ [c]) true acc
    | .escWord => shlexCore esc com fuel rest .word (tok ++ [c]) quoted acc
    | .escDq =>
      if c != '\\' && c != '"' then shlexCore esc com fuel rest .inDq (tok ++ ['\\', c]) quoted acc
      else shlexCore esc com fuel rest .inDq (tok ++ [c]) quoted acc

/-- `split_cmd` from `utils/parse_bash.py`: posix shlex with
`whitespace_split`, backslash escaping disabled and `#` comments left
at their default (active). -/
def splitCmd (s : Str) : Option (List Str) :=
  shlexCore false true (s.length + 1) s .ws [] false []

/-- `shlex.split` as used by `compile_all.extract_script_path`:
posix shlex with `whitespace_split`, backslash escaping enabled and
comments disabled. -/
def pyShlexSplit (s : Str) : Option (List Str) :=
  shlexCore true false (s.length + 1) s .ws [] false []

/-- `_EXECUTORS` of `utils/parse_bash.py`. -/
def executorsU : List Str := ["bash".toList, "sh".toList, "pwsh".toList]

/-- `_DOT_SOURCE` of `utils/parse_bash.py`. -/
def dotSourceToks : List Str := ["source".toList, ".".toList]

/-- `_VALID_SUFFIXES` of `utils/parse_bash.py`. -/
def validSuffixes : List Str := [".sh".toList, ".ps1".toList, ".bash".toList]

/-- First character of the identifier pattern `[A-Za-z_]`. -/
def identStartChar (c : Char) : Bool := c.isAlpha || c == '_'

/-- Continuation character of the identifier pattern `[A-Za-z0-9_]`. -/
def identChar (c : Char) : Bool := c.isAlphanum || c == '_'

/-- `_ENV_ASSIGN_RE.match(tok)`: a leading identifier immediately
followed by `=`. -/
def envAssignMatch (t : Str) : Bool :=
  match t with
  | [] => false
  | c :: rest => identStartChar c && ((rest.dropWhile identChar).head? == some '=')

/-- `is_executor` from `utils/parse_bash.py`. -/
def isExecutorTok (t : Str) : Bool := executorsU.contains t

/-- `is_script` from `utils/parse_bash.py`. -/
def isScriptTok (t : Str) : Bool :=
  !(t.head? == some '-') &&
    validSuffixes.contains (lowerStr (pathSuffix (parsePath (replaceChar '\\' '/' t))))

/-- `to_posix` from `utils/parse_bash.py`. -/
def toPosix (t : Str) : Str := pathStr (parsePath (replaceChar '\\' '/' t))

/-- `extract_script_path` from `utils/parse_bash.py` (the safe
reference parser). -/
def extractScriptPathUtils (cmd : Str) : Option Str :=
  match splitCmd cmd with
  | none => none
  | some [] => none
  | some (t0 :: rest) =>
    if envAssignMatch t0 then none
    else
      match rest with
      | [] => if isScriptTok t0 then some (toPosix t0) else none
      | [t1] =>
        if isExecutorTok t0 && isScriptTok t1 then some (toPosix t1)
        else if dotSourceToks.contains t0 && isScriptTok t1 then some (toPosix t1)
        else none
      | _ => none

/-- `executors` of `compile_all.extract_script_path`. -/
def compileExecutors : List Str := ["bash".toList, "sh".toList, "source".toList]

/-- One loop iteration of `compile_all.extract_script_path`: update
`(path_found, parts)` with the next token.  (The source assigns the
same value to `path_found` in both arms of its `i > 0` conditional, so
the index is not needed.) -/
def extractCompileStep (st : Option Str × Nat) (tok : Str) : Option Str × Nat :=
  if pathSuffix (parsePath tok) = ".sh".toList then
    (some (replaceChar '\\' '/' (pathStr (parsePath tok))), st.2 + 1)
  else if !pyIsSpaceStr tok && !compileExecutors.contains tok then (st.1, st.2 + 1)
  else (st.1, st.2)

/-- `extract_script_path` from `compile_all.py`. -/
def extractScriptPathCompile (cmd : Str) : Option Str :=
  match pyShlexSplit cmd with
  | none => none
  | some tokens =>
    let st := tokens.foldl extractCompileStep (none, 0)
    if st.1.isSome && st.2 == 1 then st.1 else none

/-- The script source map: path string to pre-collected file content. -/
abbrev SourceMap := List (Str × Str)

/-- Dictionary lookup in the source map. -/
def lookupSrc (m : SourceMap) (k : Str) : Option Str :=
  (m.find? (fun e => decide (e.1 = k))).map (·.2)

/-- `read_bash_script` from `compile_all.py`: read a script from the
source map, failing when the path is absent or the stripped content is
empty. -/
def readBashScript (path : Str) (srcs : SourceMap) : Except Str Str :=
  match lookupSrc srcs path with
  | none => .error ("Script not found in source map: ".toList ++ path)
  | some c =>
    let content := pyStrip c
    if content.isEmpty then .error ("Script is empty: ".toList ++ path)
    else .ok content

/-- The path arithmetic of `process_script_list`:
`rel_path = script_path_str.strip().lstrip("./")` followed by
`str(scripts_root / rel_path)`. -/
def resolveScriptKey (root : PyPath) (p : Str) : Str :=
  pathStr (joinPath root (parsePath (pyLstripSet ['.', '/'] (pyStrip p))))

/-- A YAML script field value: a list of plain lines, a literal block
scalar, or a plain string scalar. -/
inductive YamlScript
  | strList (lines : List Str)
  | literalBlock (s : Str)
  | plainStr (s : Str)
deriving DecidableEq, Repr

/-- First pass of `process_script_list`: scan for the first referenced
script whose content exceeds 3 lines, reading each referenced script
in order (a read failure aborts). -/
def findLongScript (root : PyPath) (srcs : SourceMap) : List Str → Except Str (Option Str)
  | [] => .ok none
  | line :: rest =>
    match extractScriptPathCompile line with
    | none => findLongScript root srcs rest
    | some p =>
      match readBashScript (resolveScriptKey root p) srcs with
      | .error e => .error e
      | .ok bc =>
        if (splitlinesPy bc).length > 3 then .ok (some bc)
        else findLongScript root srcs rest

/-- Second pass of `process_script_list`: inline each referenced
script's lines in place of its reference line. -/
def inlineLines (root : PyPath) (srcs : SourceMap) : List Str → Except Str (List Str)
  | [] => .ok []
  | line :: rest =>
    match extractScriptPathCompile line with
    | none =>
      match inlineLines root srcs rest with
      | .error e => .error e
      | .ok r => .ok (line :: r)
    | some p =>
      match readBashScript (resolveScriptKey root p) srcs with
      | .error e => .error e
      | .ok bc =>
        match inlineLines root srcs rest with
        | .error e => .error e
        | .ok r => .ok (splitlinesPy bc ++ r)

/-- `process_script_list` from `compile_all.py`: a non-list field is
returned as-is; otherwise, if any referenced script is long (more than
3 lines) the whole field becomes a literal block scalar of that
script's content, and otherwise every reference is inlined line by
line. -/
def processScriptList (field : YamlScript) (root : PyPath) (srcs : SourceMap) :
    Except Str YamlScript :=
  match field with
  | .strList lines =>
    match findLongScript root srcs lines with
    | .error e => .error e
    | .ok (some bc) => .ok (.literalBlock bc)
    | .ok none =>
      match inlineLines root srcs lines with
      | .error e => .error e
      | .ok r => .ok (.strList r)
  | other => .ok other

/-- An ordered string-to-string mapping (a Python `dict`). -/
abbrev VarMap := List (Str × Str)

/-- `d[k] = v` on an ordered mapping: replace in place or append. -/
def dictSet (d : VarMap) (k v : Str) : VarMap :=
  if d.any (fun e => decide (e.1 = k)) then
    d.map (fun e => if e.1 = k then (k, v) else e)
  else d ++ [(k, v)]

/-- `d.update(e)` on ordered mappings. -/
def dictUpdate (d e : VarMap) : VarMap :=
  e.foldl (fun acc kv => dictSet acc kv.1 kv.2) d

/-- Lookup in an ordered mapping. -/
def dictLookup (d : VarMap) (k : Str) : Option Str :=
  (d.find? (fun e => decide (e.1 = k))).map (·.2)

/-- The variable merge of `inline_gitlab_scripts`:
`merged_vars = global_vars.copy(); merged_vars.update(existing_vars)`,
so document-defined variables overwrite global ones on conflict. -/
def mergeVariables (globalVars existing : VarMap) : VarMap :=
  dictUpdate globalVars existing

/-- Modelled from the spec: the three-level variable precedence
"document-inline variables > job-scoped variable file > global
variable file".  The job-scoped variable file level is not part of the
sources under review (only the global/document-inline merge of
`compile_all.inline_gitlab_scripts` is), so the missing middle level
is composed from the same dict-update merge the source uses. -/
def mergeThreeLevels (globalVars jobVars inlineVars : VarMap) : VarMap :=
  mergeVariables (mergeVariables globalVars jobVars) inlineVars

/-- `data.pop(k)` on an ordered mapping: remove the first entry with
key `k`, returning it and the remaining entries. -/
def pyPop {α : Type} (d : List (Str × α)) (k : Str) : Option α × List (Str × α) :=
  match d with
  | [] => (none, [])
  | e :: rest =>
    if e.1 = k then (some e.2, rest)
    else
      let r := pyPop rest k
      (r.1, e :: r.2)

/-- `key_order` of `inline_gitlab_scripts`. -/
def keyOrderTop : List Str := ["include".toList, "variables".toList, "stages".toList]

/-- The top-level key reordering of `inline_gitlab_scripts`: pop the
keys of `key_order` that are present to the front (in that order),
then append the remaining entries in their original relative order. -/
def reorderTopLevel {α : Type} (d : List (Str × α)) : List (Str × α) :=
  let st := keyOrderTop.foldl (fun (st : List (Str × α) × List (Str × α)) k =>
    match pyPop st.2 k with
    | (some v, rest) => (st.1 ++ [(k, v)], rest)
    | (none, _) => st) ([], d)
  st.1 ++ st.2

/-- The quote-stripping step of `parse_env_file`: remove the first and
last character when the value starts and ends with the same quote
character. -/
def stripQuotesPy (v : Str) : Str :=
  if (v.head? == some '"' && v.getLast? == some '"') ||
     (v.head? == some squoteChar && v.getLast? == some squoteChar) then
    (v.drop 1).dropLast
  else v

/-- Match `[A-Za-z_][A-Za-z0-9_]*=` at the start of `s`, returning the
key and everything after the `=`. -/
def parseIdentEq (s : Str) : Option (Str × Str) :=
  match s with
  | [] => none
  | c :: rest =>
    if identStartChar c then
      match rest.dropWhile identChar with
      | d :: v => if d = '=' then some (c :: rest.takeWhile identChar, v) else none
      | [] => none
    else none

/-- Match one line against the `parse_env_file` regex
`^(?:export\s+)?(?P<key>[A-Za-z_][A-Za-z0-9_]*)=(?P<value>.*)$`. -/
def parseEnvLine (line : Str) : Option (Str × Str) :=
  if line.take 6 = "export".toList ∧ (line.drop 6).head?.any pyWS then
    parseIdentEq ((line.drop 6).dropWhile pyWS)
  else parseIdentEq line

/-- `parse_env_file` from `compile_all.py`. -/
def parseEnvFile (content : Str) : VarMap :=
  (splitlinesPy content).foldl (fun vars rawLine =>
    let line := pyStrip rawLine
    if line.isEmpty || line.head? == some '#' then vars
    else
      match parseEnvLine line with
      | some kv => dictSet vars kv.1 (stripQuotesPy (pyStrip kv.2))
      | none => vars) []

/-- C8, claim side: bind KEY to VALUE literally, with one matching
pair of surrounding quotes stripped — no whitespace trimming of the
value and a pair requires at least two characters. -/
def claimStripQuotes (v : Str) : Str :=
  if decide (2 ≤ v.length) &&
      ((v.head? == some '"' && v.getLast? == some '"') ||
       (v.head? == some squoteChar && v.getLast? == some squoteChar)) then
    (v.drop 1).dropLast
  else v

/-- C8, claim side: `parse_env_file` as the claim describes it. -/
def claimParseEnvFile (content : Str) : VarMap :=
  (splitlinesPy content).foldl (fun vars rawLine =>
    let line := pyStrip rawLine
    if line.isEmpty || line.head? == some '#' then vars
    else
      match parseEnvLine line with
      | some kv => dictSet vars kv.1 (claimStripQuotes kv.2)
      | none => vars) []

/-- An identifier per `[A-Za-z_][A-Za-z0-9_]*`. -/
def isIdentifierTok (k : Str) : Bool :=
  match k with
  | [] => false
  | c :: rest => identStartChar c && rest.all identChar

/-- Amended per-line specification of the variables-file format: after
trimming, a non-comment line, with an optional `export ` prefix
removed, splits at its first `=`; the part before it must be an
identifier, and the bound value is the remainder, whitespace-trimmed,
with one pair of surrounding quotes stripped (a value that is a single
quote character becomes empty). -/
def amendedEnvBinding (rawLine : Str) : Option (Str × Str) :=
  let line := pyStrip rawLine
  if line.isEmpty || line.head? == some '#' then none
  else
    let body :=
      if line.take 6 = "export".toList ∧ (line.drop 6).head?.any pyWS then
        (line.drop 6).dropWhile pyWS
      else line
    let key := body.takeWhile (fun c => c != '=')
    if body.contains '=' && isIdentifierTok key then
      some (key, stripQuotesPy (pyStrip (body.drop (key.length + 1))))
    else none

/-- Amended specification of `parse_env_file` built from the per-line
binding function. -/
def amendedEnvParse (content : Str) : VarMap :=
  (splitlinesPy content).foldl (fun vars rawLine =>
    match amendedEnvBinding rawLine with
    | some kv => dictSet vars kv.1 kv.2
    | none => vars) []

/-- Case-insensitive literal match: when `pat` (given in lowercase) is
a prefix of `s` up to ASCII case, return the remainder. -/
def matchCI (pat : Str) (s : Str) : Option Str :=
  if lowerStr (s.take pat.length) = pat then some (s.drop pat.length) else none

/-- The captures of `ARTIFACT_PRAGMA_REGEX`. -/
structure ArtifactPragma where
  sourcePath : Str
  outputPath : Option Str
  formatArg : Option Str
  stripArg : Option Str
deriving DecidableEq, Repr

/-- The alternation `zip|tar\.gz|tar\.bz2|tar\.xz` (lowercase;
matching is case-insensitive, the capture keeps the original
spelling).  No alternative is a prefix of another, so matching is
deterministic. -/
def artifactFormats : List Str :=
  ["zip".toList, "tar.gz".toList, "tar.bz2".toList, "tar.xz".toList]

/-- One optional `\s+--NAME=<value>` group where the value is a
maximal nonempty run of non-whitespace characters. -/
def parseOptValue (nameEq : Str) (s : Str) : Option (Str × Str) :=
  if s.head?.any pyWS then
    match matchCI nameEq (s.dropWhile pyWS) with
    | none => none
    | some rest =>
      let v := rest.takeWhile (fun c => !(pyWS c))
      if v.isEmpty then none else some (v, rest.drop v.length)
  else none

/-- The optional `\s+--format=(zip|tar\.gz|tar\.bz2|tar\.xz)` group. -/
def parseFormatValue (s : Str) : Option (Str × Str) :=
  if s.head?.any pyWS then
    match matchCI "--format=".toList (s.dropWhile pyWS) with
    | none => none
    | some rest =>
      match artifactFormats.find? (fun f => lowerStr (rest.take f.length) == f) with
      | none => none
      | some f => some (rest.take f.length, rest.drop f.length)
  else none

/-- The optional `\s+--strip=(\d+)` group. -/
def parseStripValue (s : Str) : Option (Str × Str) :=
  if s.head?.any pyWS then
    match matchCI "--strip=".toList (s.dropWhile pyWS) with
    | none => none
    | some rest =>
      let v := rest.takeWhile Char.isDigit
      if v.isEmpty then none else some (v, rest.drop v.length)
  else none

/-- `ARTIFACT_PRAGMA_REGEX.match(line)`:
`^\s*-?\s*\#\s*Pragma:\s*inline-artifact\s+<path>` followed by the
optional `--output=`, `--format=`, `--strip=` groups in that order and
`\s*$`, case-insensitive on the literal words. -/
def parseArtifactPragma (line : Str) : Option ArtifactPragma :=
  let s1 := line.dropWhile pyWS
  let s2 := if s1.head? == some '-' then (s1.drop 1).dropWhile pyWS else s1
  match s2 with
  | '#' :: s3 =>
    match matchCI "pragma:".toList (s3.dropWhile pyWS) with
    | none => none
    | some s4 =>
      match matchCI "inline-artifact".toList (s4.dropWhile pyWS) with
      | none => none
      | some s5 =>
        if s5.head?.any pyWS then
          let s6 := s5.dropWhile pyWS
          let src := s6.takeWhile (fun c => !(pyWS c))
          if src.isEmpty then none
          else
            let rest0 := s6.drop src.length
            let st1 := match parseOptValue "--output=".toList rest0 with
              | some (v, r) => (some v, r)
              | none => ((none : Option Str), rest0)
            let st2 := match parseFormatValue st1.2 with
              | some (v, r) => (some v, r)
              | none => ((none : Option Str), st1.2)
            let st3 := match parseStripValue st2.2 with
              | some (v, r) => (some v, r)
              | none => ((none : Option Str), st2.2)
            if (st3.2.dropWhile pyWS).isEmpty then
              some { sourcePath := src, outputPath := st1.1,
                     formatArg := st2.1, stripArg := st3.1 }
            else none
        else none
  | _ => none

/-- An in-memory filesystem: absolute component paths of regular files
(with contents) and of directories.  The enumeration order of `files`
models the directory-walk order of `rglob`. -/
structure PyFS where
  files : List (List Str × Str)
  dirs : List (List Str)
deriving DecidableEq, Repr

/-- `p.is_file()`. -/
def fsIsFile (fs : PyFS) (p : List Str) : Bool :=
  fs.files.any (fun e => decide (e.1 = p))

/-- `p.is_dir()`. -/
def fsIsDir (fs : PyFS) (p : List Str) : Bool :=
  fs.dirs.any (fun d => decide (d = p))

/-- `p.exists()`. -/
def fsExists (fs : PyFS) (p : List Str) : Bool :=
  fsIsFile fs p || fsIsDir fs p

/-- Content of a file (empty for a missing path). -/
def fsContent (fs : PyFS) (p : List Str) : Str :=
  ((fs.files.find? (fun e => decide (e.1 = p))).map (·.2)).getD []

/-- An in-memory archive, abstracted to its kind and its entry list of
(`arcname`, content) pairs.  The concrete compressed byte stream of
`zipfile` is not reimplemented; theorems quantify over the byte length
and the base64 encoding as functions of this value. -/
inductive ArchiveData
  | zipArchive (entries : List (Str × Str))
  | tarArchive (compression : Str) (entries : List (Str × Str))
deriving DecidableEq, Repr

/-- `create_zip_artifact`: collect the zip entries of a file (bare
file name as arcname) or recursively of a directory (arcnames relative
to it, in walk order), always building a **zip** archive. -/
def createZipArtifact (fs : PyFS) (p : List Str) : Except Str ArchiveData :=
  if !fsExists fs p then .error ("Source path does not exist: ".toList ++ strInter p)
  else if fsIsFile fs p then
    .ok (.zipArchive [((p.getLast?).getD [], fsContent fs p)])
  else if fsIsDir fs p then
    .ok (.zipArchive (fs.files.filterMap (fun e =>
      if p.isPrefixOf e.1 ∧ e.1 ≠ p then some (strInter (e.1.drop p.length), e.2)
      else none)))
  else .error ("Source path is neither file nor directory: ".toList ++ strInter p)

/-- C3, claim side, modelled from the spec: "the source file or
directory compressed into the requested archive format" — a zip
archive for `zip`, a tar archive for the `tar.*` formats. -/
def specRequestedArchive (fmt : Str) (entries : List (Str × Str)) : ArchiveData :=
  if fmt = "zip".toList then .zipArchive entries else .tarArchive fmt entries

/-- `format_size`: human-readable size.  The one-decimal float
rendering is approximated with round-half-up fixed-point arithmetic;
no theorem relies on the decimal digits. -/
def formatSize (n : Nat) : Str :=
  if n < 1024 then natToStr n ++ " bytes".toList
  else if n < 1024 * 1024 then
    let tenths := (n * 10 + 512) / 1024
    natToStr (tenths / 10) ++ '.' :: natToStr (tenths % 10) ++ "KB".toList
  else
    let tenths := (n * 10 + 524288) / 1048576
    natToStr (tenths / 10) ++ '.' :: natToStr (tenths % 10) ++ "MB".toList

/-- `generate_extraction_shim`: the six shim lines. -/
def generateExtractionShim (artifactB64 outputPath formatType sourceDisplay sizeDisplay : Str) :
    List Str :=
  let extractCmd :=
    if formatType = "zip".toList then
      "echo \"$__B2G_ARTIFACT\" | base64 -d | unzip -q -d ".toList ++ outputPath ++ " -".toList
    else if formatType = "tar.gz".toList then
      "echo \"$__B2G_ARTIFACT\" | base64 -d | tar -xzf - -C ".toList ++ outputPath ++
        " --no-same-owner".toList
    else if formatType = "tar.bz2".toList then
      "echo \"$__B2G_ARTIFACT\" | base64 -d | tar -xjf - -C ".toList ++ outputPath ++
        " --no-same-owner".toList
    else if formatType = "tar.xz".toList then
      "echo \"$__B2G_ARTIFACT\" | base64 -d | tar -xJf - -C ".toList ++ outputPath ++
        " --no-same-owner".toList
    else
      "echo \"$__B2G_ARTIFACT\" | base64 -d | unzip -q -d ".toList ++ outputPath ++ " -".toList
  [ "# >>> BEGIN inline-artifact: ".toList ++ sourceDisplay ++ " (".toList ++ formatType ++
      ", ".toList ++ sizeDisplay ++ ")".toList
  , "__B2G_ARTIFACT=".toList ++ squoteChar :: (artifactB64 ++ [squoteChar])
  , "mkdir -p ".toList ++ outputPath
  , extractCmd
  , "unset __B2G_ARTIFACT".toList
  , "# <<< END inline-artifact".toList ]

/-- `maybe_inline_artifact`.  External collaborators are parameters:
`cwd` is the working directory `Path.resolve` resolves against,
`b64`/`byteLen` give the `zipfile` byte stream's base64 encoding and
byte length as functions of the archive value, and `maxSize`/`warnSize`
are the configured limits read by `get_max_artifact_size` and
`get_warn_artifact_size`. -/
def maybeInlineArtifact (fs : PyFS) (cwd : List Str)
    (b64 : ArchiveData → Str) (byteLen : ArchiveData → Nat)
    (maxSize warnSize : Nat) (line : Str) (inputDir : PyPath) :
    Option (List Str) × Option PyPath :=
  match parseArtifactPragma line with
  | none => (none, none)
  | some pr =>
    let formatType := pr.formatArg.getD "zip".toList
    let sourcePath := pyResolve cwd (joinPath inputDir (parsePath pr.sourcePath))
    let rootR := pyResolve cwd inputDir
    if !(rootR.comps.isPrefixOf sourcePath.comps) then (none, none)
    else
      let outputPath := pr.outputPath.getD ("./".toList ++ pathName sourcePath)
      if !fsExists fs sourcePath.comps then (none, none)
      else
        match createZipArtifact fs sourcePath.comps with
        | .error _ => (none, none)
        | .ok artifact =>
          let compressedSize := byteLen artifact
          if compressedSize > maxSize then (none, none)
          else
            (some (generateExtractionShim (b64 artifact) outputPath formatType
                pr.sourcePath (formatSize compressedSize)),
             some sourcePath)

/-- `HASH_DIR_NAME` / `OUTPUT_HASH_SUBDIR` as path components. -/
def hashDirComps : List Str := [".bash2gitlab".toList, "output_hashes".toList]

/-- `get_output_hash_path` from `hash_path_helpers.py`. -/
def getOutputHashPath (outputFile outputBase : PyPath) : Except Str PyPath :=
  let rel :=
    match relativeTo outputFile outputBase with
    | some r => r
    | none => parsePath (replaceChar ':' '_' (pyLstripSet ['/', '\\'] (pathStr outputFile)))
  match pyWithSuffix rel (pathSuffix rel ++ ".hash".toList) with
  | .error e => .error e
  | .ok relHash =>
    .ok (joinPath (joinPath outputBase { absolute := false, comps := hashDirComps }) relHash)

/-- `get_source_file_from_hash` from `hash_path_helpers.py`. -/
def getSourceFileFromHash (hashFile outputBase : PyPath) : PyPath :=
  let hashStr := pathStr hashFile
  let baseStr :=
    if ".hash".toList.isSuffixOf hashStr then hashStr.take (hashStr.length - 5) else hashStr
  let basePath := parsePath baseStr
  let hashDir := joinPath outputBase { absolute := false, comps := hashDirComps }
  match relativeTo basePath hashDir with
  | some rel => joinPath outputBase rel
  | none => basePath

/-- C1, amended, spec side: per-line inlining — a line the extractor
matches is replaced by its script content's lines, other lines are
kept. -/
def inlinedLinesSpec (root : PyPath) (srcs : SourceMap) (line : Str) : List Str :=
  match extractScriptPathCompile line with
  | none => [line]
  | some p =>
    match readBashScript (resolveScriptKey root p) srcs with
    | .ok bc => splitlinesPy bc
    | .error _ => [line]

/-- C3, claim side, modelled from the spec: the format-specific
decode-and-extract command of the emitted shim. -/
def specExtractCmdFor (fmt out : Str) : Str :=
  if fmt = "tar.gz".toList then
    "echo \"$__B2G_ARTIFACT\" | base64 -d | tar -xzf - -C ".toList ++ out ++
      " --no-same-owner".toList
  else if fmt = "tar.bz2".toList then
    "echo \"$__B2G_ARTIFACT\" | base64 -d | tar -xjf - -C ".toList ++ out ++
      " --no-same-owner".toList
  else if fmt = "tar.xz".toList then
    "echo \"$__B2G_ARTIFACT\" | base64 -d | tar -xJf - -C ".toList ++ out ++
      " --no-same-owner".toList
  else
    "echo \"$__B2G_ARTIFACT\" | base64 -d | unzip -q -d ".toList ++ out ++ " -".toList

/-- Fixture filesystem for the artifact counterexamples: an input root
`/r` containing a file `data` and a directory `d` with two files. -/
def exArtifactFS : PyFS :=
  { files := [(["r".toList, "data".toList], "hello".toList),
              (["r".toList, "d".toList, "a.txt".toList], "A".toList),
              (["r".toList, "d".toList, "sub".toList, "b.txt".toList], "B".toList)]
    dirs := [["r".toList], ["r".toList, "d".toList],
             ["r".toList, "d".toList, "sub".toList]] }

/-- Fixture base64 encoder that distinguishes the archive kinds. -/
def exB64 : ArchiveData → Str := fun a =>
  match a with
  | .zipArchive _ => "ZIPB64".toList
  | .tarArchive _ _ => "TARB64".toList

/-- Fixture byte-length function: every archive is 10 bytes. -/
def exByteLen : ArchiveData → Nat := fun _ => 10

/-- Fixture input root `/r`. -/
def exRoot : PyPath := { absolute := true, comps := ["r".toList] }

/-- A path component that parses back unchanged: nonempty, not `.`,
and free of `/`. -/
def validComp (c : Str) : Prop := c ≠ [] ∧ c ≠ ['.'] ∧ '/' ∉ c

/-- All components of a list are valid. -/
def validComps (cs : List Str) : Prop := ∀ c ∈ cs, validComp c

/-- Lookup in an ordered association list with arbitrary values. -/
def assocLookup {α : Type} (d : List (Str × α)) (k : Str) : Option α :=
  (d.find? (fun e => decide (e.1 = k))).map (·.2)

deriving instance DecidableEq for Except

theorem isScriptTok_dash (t : Str) (h : t.head? = some '-') : isScriptTok t = false := by
  simp [isScriptTok, h]

theorem dash_not_executor (t : Str) (h : t.head? = some '-') : t ∉ executorsU := by
  intro hm
  simp only [executorsU, List.mem_cons, List.mem_singleton, List.not_mem_nil] at hm
  rcases hm with rfl | rfl | rfl | hm
  · exact absurd h (by decide)
  · exact absurd h (by decide)
  · exact absurd h (by decide)
  · exact hm.elim

theorem dash_not_dotsource (t : Str) (h : t.head? = some '-') : t ∉ dotSourceToks := by
  intro hm
  simp only [dotSourceToks, List.mem_cons, List.mem_singleton, List.not_mem_nil] at hm
  rcases hm with rfl | rfl | hm
  · exact absurd h (by decide)
  · exact absurd h (by decide)
  · exact hm.elim

/-- C4: a command line containing an interpreter flag (a token
starting with `-`), an extra positional argument beyond the single
script path, or a leading `IDENT=value` assignment as its first token
is rejected by the safe reference parser `extract_script_path`. -/
theorem c4_unsafe_shapes_rejected (cmd : Str) (ts : List Str)
    (hsplit : splitCmd cmd = some ts)
    (hbad :
      (∃ t ∈ ts, t.head? = some '-') ∨
      (3 ≤ ts.length ∨
        ∃ t0 t1, ts = [t0, t1] ∧ t0 ∉ executorsU ∧ t0 ∉ dotSourceToks) ∨
      (∃ t0 rest, ts = t0 :: rest ∧ envAssignMatch t0 = true)) :
    extractScriptPathUtils cmd = none := by
  unfold extractScriptPathUtils
  rw [hsplit]
  rcases ts with _ | ⟨t0, _ | ⟨t1, _ | ⟨t2, rest⟩⟩⟩
  · rfl
  · by_cases ha : envAssignMatch t0 = true
    · simp [ha]
    · rcases hbad with ⟨t, ht, hd⟩ | (hlen | ⟨u0, u1, heq, _⟩) | ⟨u0, urest, heq, hm⟩
      · rcases List.mem_singleton.mp ht with rfl
        simp [ha, isScriptTok_dash t hd]
      · simp at hlen
      · simp at heq
      · rcases heq with ⟨rfl, _⟩
        exact absurd hm ha
  · by_cases ha : envAssignMatch t0 = true
    · simp [ha]
    · rcases hbad with ⟨t, ht, hd⟩ | (hlen | ⟨u0, u1, heq, hex, hds⟩) | ⟨u0, urest, heq, hm⟩
      · rcases List.mem_cons.mp ht with rfl | ht'
        · have hex : isExecutorTok t = false := by
            simpa [isExecutorTok] using dash_not_executor t hd
          simp [ha, hex, dash_not_dotsource t hd]
        · rcases List.mem_singleton.mp ht' with rfl
          simp [ha, isScriptTok_dash t hd]
      · simp at hlen
      · rcases heq with ⟨rfl, rfl⟩
        have hex' : isExecutorTok t0 = false := by simpa [isExecutorTok] using hex
        simp [ha, hex', hds]
      · rcases heq with ⟨rfl, _⟩
        exact absurd hm ha
  · by_cases ha : envAssignMatch t0 = true <;> simp [ha]

theorem c4_witness :
    extractScriptPathUtils "bash -x foo.sh".toList = none ∧
    extractScriptPathUtils "./a.sh b".toList = none ∧
    extractScriptPathUtils "VAR=1 x.sh".toList = none :=
  ⟨c4_unsafe_shapes_rejected _ ["bash".toList, "-x".toList, "foo.sh".toList] (by decide)
      (Or.inl ⟨"-x".toList, by decide, by decide⟩),
   c4_unsafe_shapes_rejected _ ["./a.sh".toList, "b".toList] (by decide)
      (Or.inr (Or.inl (Or.inr ⟨"./a.sh".toList, "b".toList, rfl, by decide, by decide⟩))),
   c4_unsafe_shapes_rejected _ ["VAR=1".toList, "x.sh".toList] (by decide)
      (Or.inr (Or.inr ⟨"VAR=1".toList, ["x.sh".toList], rfl, by decide⟩))⟩

/-- C5: an artifact pragma whose source path, resolved against the
input root, lies outside that root is never inlined —
`maybe_inline_artifact` returns `(None, None)` — and a line the pragma
regex does not accept (in particular one carrying any additional
directive) is never inlined either, so no pragma lifts the containment
check. -/
theorem c5_outside_root_rejected (fs : PyFS) (cwd : List Str)
    (b64 : ArchiveData → Str) (byteLen : ArchiveData → Nat)
    (maxSize warnSize : Nat) (line : Str) (inputDir : PyPath) :
    (parseArtifactPragma line = none →
      maybeInlineArtifact fs cwd b64 byteLen maxSize warnSize line inputDir = (none, none)) ∧
    (∀ pr, parseArtifactPragma line = some pr →
      (pyResolve cwd inputDir).comps.isPrefixOf
          (pyResolve cwd (joinPath inputDir (parsePath pr.sourcePath))).comps = false →
      maybeInlineArtifact fs cwd b64 byteLen maxSize warnSize line inputDir = (none, none)) := by
  constructor
  · intro h
    simp only [maybeInlineArtifact, h]
  · intro pr h hout
    simp only [maybeInlineArtifact, h, hout]
    simp

theorem c5_witness :
    maybeInlineArtifact exArtifactFS [] exB64 exByteLen 100 50
      "# Pragma: inline-artifact ../evil".toList exRoot = (none, none) ∧
    maybeInlineArtifact exArtifactFS [] exB64 exByteLen 100 50
      "# Pragma: inline-artifact ../evil --allow-outside-root".toList exRoot = (none, none) :=
  ⟨(c5_outside_root_rejected exArtifactFS [] exB64 exByteLen 100 50
      "# Pragma: inline-artifact ../evil".toList exRoot).2
      { sourcePath := "../evil".toList, outputPath := none,
        formatArg := none, stripArg := none } (by decide) (by decide),
   (c5_outside_root_rejected exArtifactFS [] exB64 exByteLen 100 50
      "# Pragma: inline-artifact ../evil --allow-outside-root".toList exRoot).1 (by decide)⟩

/-- C1 fails on the code: a referenced script of exactly 3 lines keeps
list form after inlining, while the claim requires a collapse to a
single block-literal scalar for 3 or more lines. -/
theorem c1_counterexample :
    (splitlinesPy "a\nb\nc".toList).length = 3 ∧
    processScriptList (.strList ["./s.sh".toList, "echo hi".toList])
        (parsePath "scripts".toList) [("scripts/s.sh".toList, "a\nb\nc".toList)] =
      .ok (.strList ["a".toList, "b".toList, "c".toList, "echo hi".toList]) := by
  exact ⟨by decide, by decide⟩

/-- C2 fails on the code for artifact failures: an inline-artifact
payload of 10 compressed bytes against a 5-byte maximum does not abort
with an error — `maybe_inline_artifact` catches the failure and
returns `(None, None)`, leaving the pragma line in place; a missing
artifact source is likewise downgraded and the line is preserved. -/
theorem c2_counterexample :
    (parseArtifactPragma "# Pragma: inline-artifact ./data".toList).isSome = true ∧
    5 < exByteLen (ArchiveData.zipArchive [("data".toList, "hello".toList)]) ∧
    maybeInlineArtifact exArtifactFS [] exB64 exByteLen 5 3
      "# Pragma: inline-artifact ./data".toList exRoot = (none, none) ∧
    fsExists exArtifactFS ["r".toList, "missing".toList] = false ∧
    maybeInlineArtifact exArtifactFS [] exB64 exByteLen 100 50
      "# Pragma: inline-artifact ./missing".toList exRoot = (none, none) := by
  exact ⟨by decide, by decide, by decide, by decide, by decide⟩

/-- C3 fails on the code: for `--format=tar.gz` the embedded payload
is the base64 encoding of the **zip** archive of the source, not of
the requested tar archive, even though the shim's extract command is
the tar one. -/
theorem c3_counterexample :
    ((maybeInlineArtifact exArtifactFS [] exB64 exByteLen 100 50
        "# Pragma: inline-artifact ./data --format=tar.gz".toList exRoot).1.getD [])[1]? =
      some ("__B2G_ARTIFACT=".toList ++ squoteChar :: ("ZIPB64".toList ++ [squoteChar])) ∧
    exB64 (ArchiveData.zipArchive [("data".toList, "hello".toList)]) = "ZIPB64".toList ∧
    exB64 (specRequestedArchive "tar.gz".toList [("data".toList, "hello".toList)]) =
      "TARB64".toList ∧
    ("ZIPB64".toList : Str) ≠ "TARB64".toList ∧
    ((maybeInlineArtifact exArtifactFS [] exB64 exByteLen 100 50
        "# Pragma: inline-artifact ./data --format=tar.gz".toList exRoot).1.getD [])[3]? =
      some (specExtractCmdFor "tar.gz".toList "./data".toList) := by
  exact ⟨by decide, by decide, by decide, by decide, by decide⟩

/-- C8 fails on the code: for the line `K= x` the code binds `K` to
the whitespace-trimmed value `x`, while the claim's reading (the value
with only a matching quote pair stripped) binds `K` to ` x`. -/
theorem c8_counterexample :
    parseEnvFile "K= x".toList = [("K".toList, "x".toList)] ∧
    claimParseEnvFile "K= x".toList = [("K".toList, " x".toList)] ∧
    parseEnvFile "K= x".toList ≠ claimParseEnvFile "K= x".toList := by
  exact ⟨by decide, by decide, by decide⟩

/-- C9 fails on the code: the two extractors disagree — on the command
line `a.ps1` the safe reference parser of `utils/parse_bash.py`
returns a match while `compile_all.extract_script_path` (which only
recognizes the `.sh` suffix) returns none. -/
theorem c9_counterexample :
    extractScriptPathUtils "a.ps1".toList = some "a.ps1".toList ∧
    extractScriptPathCompile "a.ps1".toList = none ∧
    extractScriptPathUtils "a.ps1".toList ≠ extractScriptPathCompile "a.ps1".toList := by
  exact ⟨by decide, by decide, by decide⟩

theorem find?_append {α : Type} (p : α → Bool) (l₁ l₂ : List α) :
    (l₁ ++ l₂).find? p = (l₁.find? p).orElse (fun _ => l₂.find? p) := by
  induction l₁ with
  | nil => rfl
  | cons a t ih =>
    cases hpa : p a
    · rw [List.cons_append, List.find?_cons_of_neg _ (by simp [hpa]),
        List.find?_cons_of_neg _ (by simp [hpa]), ih]
    · rw [List.cons_append, List.find?_cons_of_pos _ hpa, List.find?_cons_of_pos _ hpa]
      rfl

theorem map_eq_self_of {α : Type} (l : List α) (f : α → α) (h : ∀ x ∈ l, f x = x) :
    l.map f = l := by
  conv_rhs => rw [← List.map_id l]
  exact List.map_congr_left h

theorem dictLookup_set_self (d : VarMap) (k v : Str) :
    dictLookup (dictSet d k v) k = some v := by
  unfold dictSet
  cases hany : d.any (fun e => decide (e.1 = k))
  · simp only [Bool.false_eq_true, if_false, dictLookup, find?_append]
    rw [List.find?_eq_none.mpr (List.any_eq_false.mp hany)]
    simp [List.find?]
  · simp only [if_true, dictLookup]
    induction d with
    | nil => simp at hany
    | cons e t ih =>
      by_cases he : e.1 = k
      · rw [List.map_cons, if_pos he, List.find?_cons_of_pos _ (by simp)]
        rfl
      · rw [List.map_cons, if_neg he, List.find?_cons_of_neg _ (by simpa using he)]
        exact ih (by simpa [List.any_cons, he] using hany)

theorem dictLookup_set_other (d : VarMap) (k v k' : Str) (h : k' ≠ k) :
    dictLookup (dictSet d k v) k' = dictLookup d k' := by
  unfold dictSet
  cases hany : d.any (fun e => decide (e.1 = k))
  · simp only [Bool.false_eq_true, if_false, dictLookup, find?_append]
    have h2 : List.find? (fun e => decide (e.1 = k')) [(k, v)] = none := by
      simp [List.find?, Ne.symm h]
    rw [h2]
    cases d.find? (fun e => decide (e.1 = k')) <;> rfl
  · simp only [if_true, dictLookup]
    have hmap : ∀ t : VarMap, t.any (fun e => decide (e.1 = k)) = false →
        t.map (fun e => if e.1 = k then (k, v) else e) = t := by
      intro t hat
      apply map_eq_self_of
      intro x hx
      rw [if_neg (by simpa using List.any_eq_false.mp hat x hx)]
    induction d with
    | nil => rfl
    | cons e t ih =>
      by_cases he : e.1 = k
      · rw [List.map_cons, if_pos he,
          List.find?_cons_of_neg _ (by simp [Ne.symm h]),
          List.find?_cons_of_neg _ (by simp [he, Ne.symm h])]
        cases hat : t.any (fun e => decide (e.1 = k))
        · rw [hmap t hat]
        · exact ih hat
      · rw [List.map_cons, if_neg he]
        by_cases hek : e.1 = k'
        · rw [List.find?_cons_of_pos _ (by simpa using hek),
            List.find?_cons_of_pos _ (by simpa using hek)]
        · rw [List.find?_cons_of_neg _ (by simpa using hek),
            List.find?_cons_of_neg _ (by simpa using hek)]
          cases hat : t.any (fun e => decide (e.1 = k))
          · rw [hmap t hat]
          · exact ih hat

theorem dictLookup_not_mem (e : VarMap) (k : Str) (h : k ∉ e.map Prod.fst) :
    dictLookup e k = none := by
  unfold dictLookup
  rw [List.find?_eq_none.mpr ?_]
  · rfl
  · intro x hx hc
    exact h (List.mem_map.mpr ⟨x, hx, of_decide_eq_true hc⟩)

theorem dictLookup_update (d e : VarMap) (k : Str) (he : (e.map Prod.fst).Nodup) :
    dictLookup (dictUpdate d e) k =
      (dictLookup e k).orElse (fun _ => dictLookup d k) := by
  induction e generalizing d with
  | nil => simp [dictUpdate, dictLookup, List.find?]
  | cons kv t ih =>
    rw [List.map_cons] at he
    have hcons := List.nodup_cons.mp he
    have hstep : dictUpdate d (kv :: t) = dictUpdate (dictSet d kv.1 kv.2) t := rfl
    rw [hstep, ih _ hcons.2]
    by_cases hkk : k = kv.1
    · subst hkk
      rw [dictLookup_not_mem t kv.1 hcons.1, dictLookup_set_self]
      simp only [dictLookup]
      rw [List.find?_cons_of_pos _ (by simp)]
      rfl
    · rw [dictLookup_set_other _ _ _ _ hkk]
      simp only [dictLookup]
      rw [List.find?_cons_of_neg _ (by simpa using Ne.symm hkk)]

/-- C6: merging the three variable provenance levels resolves every
conflicting key with document-inline values over job-file values over
global values, and on the concrete example of the spec the merge of
global `{A: g, B: g}`, job-file `{B: j, C: j}` and document-inline
`{C: y}` is `{A: g, B: j, C: y}`. -/
theorem c6_variable_precedence :
    (∀ g j i k, (j.map Prod.fst).Nodup → (i.map Prod.fst).Nodup →
      dictLookup (mergeThreeLevels g j i) k =
        (dictLookup i k).orElse (fun _ =>
          (dictLookup j k).orElse (fun _ => dictLookup g k))) ∧
    mergeThreeLevels [("A".toList, "g".toList), ("B".toList, "g".toList)]
        [("B".toList, "j".toList), ("C".toList, "j".toList)]
        [("C".toList, "y".toList)] =
      [("A".toList, "g".toList), ("B".toList, "j".toList), ("C".toList, "y".toList)] := by
  constructor
  · intro g j i k hj hi
    unfold mergeThreeLevels mergeVariables
    rw [dictLookup_update _ _ _ hi, dictLookup_update _ _ _ hj]
  · decide

theorem c6_witness :
    dictLookup (mergeThreeLevels [("A".toList, "g".toList)] [("A".toList, "j".toList)]
        [("A".toList, "y".toList)]) "A".toList = some "y".toList :=
  (c6_variable_precedence.1 [("A".toList, "g".toList)] [("A".toList, "j".toList)]
      [("A".toList, "y".toList)] "A".toList (by decide) (by decide)).trans (by decide)

theorem assocLookup_eq_none {α : Type} (d : List (Str × α)) (k : Str) :
    assocLookup d k = none ↔ k ∉ d.map Prod.fst := by
  unfold assocLookup
  rw [Option.map_eq_none', List.find?_eq_none]
  constructor
  · intro h hm
    rcases List.mem_map.mp hm with ⟨e, he, hek⟩
    exact h e he (by simp [hek])
  · intro h e he hc
    exact h (List.mem_map.mpr ⟨e, he, of_decide_eq_true hc⟩)

theorem pyPop_eq {α : Type} (d : List (Str × α)) (k : Str)
    (hnd : (d.map Prod.fst).Nodup) :
    pyPop d k = (assocLookup d k, d.filter (fun e => decide (e.1 ≠ k))) := by
  induction d with
  | nil => rfl
  | cons e t ih =>
    rw [List.map_cons] at hnd
    have hcons := List.nodup_cons.mp hnd
    by_cases he : e.1 = k
    · simp only [pyPop, if_pos he]
      have h1 : assocLookup (e :: t) k = some e.2 := by
        unfold assocLookup
        rw [List.find?_cons_of_pos _ (by simpa using he)]
        rfl
      have h2 : (e :: t).filter (fun e => decide (e.1 ≠ k)) = t := by
        rw [List.filter_cons_of_neg (by simp [he])]
        apply List.filter_eq_self.mpr
        intro x hx
        have : x.1 ≠ k := by
          intro hc
          exact hcons.1 (he ▸ hc ▸ List.mem_map.mpr ⟨x, hx, rfl⟩)
        simpa using this
      rw [h1, h2]
    · simp only [pyPop, if_neg he]
      rw [ih hcons.2]
      have h1 : assocLookup (e :: t) k = assocLookup t k := by
        unfold assocLookup
        rw [List.find?_cons_of_neg _ (by simpa using he)]
      have h2 : (e :: t).filter (fun e => decide (e.1 ≠ k)) =
          e :: t.filter (fun e => decide (e.1 ≠ k)) := by
        rw [List.filter_cons_of_pos (by simpa using he)]
      rw [h1, h2]

theorem assocLookup_filter_ne {α : Type} (d : List (Str × α)) (k k' : Str) (h : k' ≠ k) :
    assocLookup (d.filter (fun e => decide (e.1 ≠ k))) k' = assocLookup d k' := by
  induction d with
  | nil => rfl
  | cons e t ih =>
    by_cases hek : e.1 = k
    · rw [List.filter_cons_of_neg (by simp [hek]), ih]
      unfold assocLookup
      rw [List.find?_cons_of_neg _ (by simp [hek, Ne.symm h])]
    · rw [List.filter_cons_of_pos (by simpa using hek)]
      by_cases hek' : e.1 = k'
      · unfold assocLookup
        rw [List.find?_cons_of_pos _ (by simpa using hek'),
          List.find?_cons_of_pos _ (by simpa using hek')]
      · unfold assocLookup at ih ⊢
        rw [List.find?_cons_of_neg _ (by simpa using hek'),
          List.find?_cons_of_neg _ (by simpa using hek')]
        exact ih

theorem reorderFold_eq {α : Type} (ks : List Str) (hks : ks.Nodup) :
    ∀ (d ord : List (Str × α)), (d.map Prod.fst).Nodup →
    ks.foldl (fun (st : List (Str × α) × List (Str × α)) k =>
        match pyPop st.2 k with
        | (some v, rest) => (st.1 ++ [(k, v)], rest)
        | (none, _) => st) (ord, d) =
      (ord ++ ks.filterMap (fun k => (assocLookup d k).map (fun v => (k, v))),
       d.filter (fun e => decide (e.1 ∉ ks))) := by
  induction ks with
  | nil =>
    intro d ord hnd
    simp
  | cons k ks' ih =>
    intro d ord hnd
    have hkcons := List.nodup_cons.mp hks
    rw [List.foldl_cons]
    rcases hlk : assocLookup d k with _ | v
    · have hstep : pyPop d k = (none, d.filter (fun e => decide (e.1 ≠ k))) := by
        rw [pyPop_eq d k hnd, hlk]
      rw [hstep]
      rw [ih hkcons.2 d ord hnd]
      have hk : k ∉ d.map Prod.fst := (assocLookup_eq_none d k).mp hlk
      congr 1
      · rw [List.filterMap_cons, hlk]
        simp
      · apply List.filter_congr
        intro e hme
        have hne : e.1 ≠ k := fun hc => hk (hc ▸ List.mem_map.mpr ⟨e, hme, rfl⟩)
        simp [List.mem_cons, hne]
    · have hstep : pyPop d k = (some v, d.filter (fun e => decide (e.1 ≠ k))) := by
        rw [pyPop_eq d k hnd, hlk]
      rw [hstep]
      have hndf : (((d.filter (fun e => decide (e.1 ≠ k))).map Prod.fst)).Nodup :=
        List.Nodup.sublist ((List.filter_sublist d).map Prod.fst) hnd
      rw [ih hkcons.2 _ _ hndf]
      congr 1
      · rw [List.filterMap_cons, hlk]
        rw [List.append_assoc, List.singleton_append]
        congr 1
        congr 1
        apply List.filterMap_congr
        intro k' hk'
        have hne : k' ≠ k := fun hc => hkcons.1 (hc ▸ hk')
        rw [assocLookup_filter_ne d k k' hne]
      · rw [List.filter_filter]
        apply List.filter_congr
        intro e hme
        by_cases hek : e.1 = k
        · simp [hek]
        · simp [List.mem_cons, hek]

/-- C7: the top-level reordering keeps exactly the input's keys —
membership in the output key list coincides with membership in the
input key list — and produces the present keys of
`include, variables, stages` first, in that order, followed by all
remaining entries in their original relative order. -/
theorem c7_reorder {α : Type} (d : List (Str × α)) (hnd : (d.map Prod.fst).Nodup) :
    reorderTopLevel d =
      keyOrderTop.filterMap (fun k => (assocLookup d k).map (fun v => (k, v))) ++
        d.filter (fun e => decide (e.1 ∉ keyOrderTop)) ∧
    ∀ k, k ∈ (reorderTopLevel d).map Prod.fst ↔ k ∈ d.map Prod.fst := by
  have hmain : reorderTopLevel d =
      keyOrderTop.filterMap (fun k => (assocLookup d k).map (fun v => (k, v))) ++
        d.filter (fun e => decide (e.1 ∉ keyOrderTop)) := by
    unfold reorderTopLevel
    rw [reorderFold_eq keyOrderTop (by decide) d [] hnd]
    simp
  refine ⟨hmain, ?_⟩
  intro k
  rw [hmain]
  simp only [List.map_append, List.mem_append, List.mem_map, List.mem_filterMap,
    List.mem_filter]
  constructor
  · rintro (⟨e, ⟨k', hk', hlk⟩, rfl⟩ | ⟨e, ⟨hme, _⟩, rfl⟩)
    · rcases Option.map_eq_some'.mp hlk with ⟨v, hv, hev⟩
      have hk'mem : k' ∈ d.map Prod.fst := by
        by_contra hc
        rw [(assocLookup_eq_none d k').mpr hc] at hv
        exact absurd hv (by simp)
      rcases List.mem_map.mp hk'mem with ⟨e', he', hek⟩
      exact ⟨e', he', by rw [← hev]; exact hek⟩
    · exact ⟨e, hme, rfl⟩
  · rintro ⟨e, hme, rfl⟩
    by_cases hin : e.1 ∈ keyOrderTop
    · left
      have hex : ∃ v, assocLookup d e.1 = some v := by
        rcases hfind : d.find? (fun x => decide (x.1 = e.1)) with _ | e'
        · exact absurd (List.find?_eq_none.mp hfind e hme) (by simp)
        · exact ⟨e'.2, by unfold assocLookup; rw [hfind]; rfl⟩
      rcases hex with ⟨v, hv⟩
      exact ⟨(e.1, v), ⟨e.1, hin, by rw [hv]; rfl⟩, rfl⟩
    · right
      exact ⟨e, ⟨hme, by simpa using hin⟩, rfl⟩

theorem c7_witness :
    reorderTopLevel [("jobA".toList, 1), ("stages".toList, 2), ("include".toList, 3)] =
      [("include".toList, 3), ("stages".toList, 2), ("jobA".toList, 1)] :=
  ((c7_reorder [("jobA".toList, 1), ("stages".toList, 2), ("include".toList, 3)]
      (by decide)).1).trans (by decide)

theorem findLongScript_ok_none (root : PyPath) (srcs : SourceMap) (lines : List Str)
    (h : ∀ line ∈ lines, ∀ p, extractScriptPathCompile line = some p →
      ∃ bc, readBashScript (resolveScriptKey root p) srcs = .ok bc ∧
        (splitlinesPy bc).length ≤ 3) :
    findLongScript root srcs lines = .ok none := by
  induction lines with
  | nil => rfl
  | cons line rest ih =>
    rcases hex : extractScriptPathCompile line with _ | p
    · simp only [findLongScript, hex]
      exact ih (fun l hl => h l (List.mem_cons_of_mem _ hl))
    · rcases h line (List.mem_cons_self _ _) p hex with ⟨bc, hrd, hlen⟩
      simp only [findLongScript, hex, hrd]
      rw [if_neg (by omega)]
      exact ih (fun l hl => h l (List.mem_cons_of_mem _ hl))

theorem inlineLines_flat (root : PyPath) (srcs : SourceMap) (lines : List Str)
    (h : ∀ line ∈ lines, ∀ p, extractScriptPathCompile line = some p →
      ∃ bc, readBashScript (resolveScriptKey root p) srcs = .ok bc ∧
        (splitlinesPy bc).length ≤ 3) :
    inlineLines root srcs lines = .ok (lines.flatMap (inlinedLinesSpec root srcs)) := by
  induction lines with
  | nil => rfl
  | cons line rest ih =>
    have ihr := ih (fun l hl => h l (List.mem_cons_of_mem _ hl))
    rcases hex : extractScriptPathCompile line with _ | p
    · simp only [inlineLines, hex, ihr, List.flatMap_cons, inlinedLinesSpec]
      rfl
    · rcases h line (List.mem_cons_self _ _) p hex with ⟨bc, hrd, _⟩
      simp only [inlineLines, hex, hrd, ihr, List.flatMap_cons, inlinedLinesSpec]

theorem findLongScript_found (root : PyPath) (srcs : SourceMap)
    (pre : List Str) (line : Str) (post : List Str) (p bc : Str)
    (hpre : ∀ l ∈ pre, ∀ q, extractScriptPathCompile l = some q →
      ∃ c, readBashScript (resolveScriptKey root q) srcs = .ok c ∧
        (splitlinesPy c).length ≤ 3)
    (hex : extractScriptPathCompile line = some p)
    (hrd : readBashScript (resolveScriptKey root p) srcs = .ok bc)
    (hlen : 3 < (splitlinesPy bc).length) :
    findLongScript root srcs (pre ++ line :: post) = .ok (some bc) := by
  induction pre with
  | nil =>
    simp only [List.nil_append, findLongScript, hex, hrd]
    rw [if_pos hlen]
  | cons l pre' ih =>
    have ihr := ih (fun x hx => hpre x (List.mem_cons_of_mem _ hx))
    rcases hexl : extractScriptPathCompile l with _ | q
    · simpa only [List.cons_append, findLongScript, hexl] using ihr
    · rcases hpre l (List.mem_cons_self _ _) q hexl with ⟨c, hc, hlc⟩
      simp only [List.cons_append, findLongScript, hexl, hc]
      rw [if_neg (by omega)]
      exact ihr

theorem findLongScript_error (root : PyPath) (srcs : SourceMap)
    (pre : List Str) (line : Str) (post : List Str) (p : Str) (e : Str)
    (hpre : ∀ l ∈ pre, ∀ q, extractScriptPathCompile l = some q →
      ∃ c, readBashScript (resolveScriptKey root q) srcs = .ok c ∧
        (splitlinesPy c).length ≤ 3)
    (hex : extractScriptPathCompile line = some p)
    (hrd : readBashScript (resolveScriptKey root p) srcs = .error e) :
    findLongScript root srcs (pre ++ line :: post) = .error e := by
  induction pre with
  | nil =>
    simp only [List.nil_append, findLongScript, hex, hrd]
  | cons l pre' ih =>
    have ihr := ih (fun x hx => hpre x (List.mem_cons_of_mem _ hx))
    rcases hexl : extractScriptPathCompile l with _ | q
    · simpa only [List.cons_append, findLongScript, hexl] using ihr
    · rcases hpre l (List.mem_cons_self _ _) q hexl with ⟨c, hc, hlc⟩
      simp only [List.cons_append, findLongScript, hexl, hc]
      rw [if_neg (by omega)]
      exact ihr

/-- C1, amended: when every referenced script reads successfully with
at most 3 lines of content, the field keeps list form and is the
in-order concatenation in which each matched reference line is
replaced by its script content's lines and all other lines are kept;
when some referenced script has more than 3 lines (the references
before it reading successfully as short scripts), the whole field
collapses to a single block-literal scalar holding exactly that first
long script's content, the other lines being dropped. -/
theorem c1_inlining_behavior (root : PyPath) (srcs : SourceMap) :
    (∀ lines : List Str,
      (∀ line ∈ lines, ∀ p, extractScriptPathCompile line = some p →
        ∃ bc, readBashScript (resolveScriptKey root p) srcs = .ok bc ∧
          (splitlinesPy bc).length ≤ 3) →
      processScriptList (.strList lines) root srcs =
        .ok (.strList (lines.flatMap (inlinedLinesSpec root srcs)))) ∧
    (∀ (pre : List Str) (line : Str) (post : List Str) (p bc : Str),
      (∀ l ∈ pre, ∀ q, extractScriptPathCompile l = some q →
        ∃ c, readBashScript (resolveScriptKey root q) srcs = .ok c ∧
          (splitlinesPy c).length ≤ 3) →
      extractScriptPathCompile line = some p →
      readBashScript (resolveScriptKey root p) srcs = .ok bc →
      3 < (splitlinesPy bc).length →
      processScriptList (.strList (pre ++ line :: post)) root srcs =
        .ok (.literalBlock bc)) := by
  constructor
  · intro lines h
    simp only [processScriptList, findLongScript_ok_none root srcs lines h,
      inlineLines_flat root srcs lines h]
  · intro pre line post p bc hpre hex hrd hlen
    simp only [processScriptList,
      findLongScript_found root srcs pre line post p bc hpre hex hrd hlen]

theorem c1_witness :
    processScriptList (.strList ["./s.sh".toList, "echo hi".toList])
        (parsePath "scripts".toList) [("scripts/s.sh".toList, "a\nb\nc".toList)] =
      .ok (.strList (["./s.sh".toList, "echo hi".toList].flatMap
        (inlinedLinesSpec (parsePath "scripts".toList)
          [("scripts/s.sh".toList, "a\nb\nc".toList)]))) ∧
    processScriptList (.strList ["./long.sh".toList, "echo hi".toList])
        (parsePath "scripts".toList) [("scripts/long.sh".toList, "a\nb\nc\nd".toList)] =
      .ok (.literalBlock "a\nb\nc\nd".toList) := by
  constructor
  · apply (c1_inlining_behavior (parsePath "scripts".toList)
      [("scripts/s.sh".toList, "a\nb\nc".toList)]).1
    intro line hl p hp
    rcases List.mem_cons.mp hl with rfl | hl'
    · rw [show extractScriptPathCompile "./s.sh".toList = some "s.sh".toList from by decide] at hp
      cases hp
      exact ⟨"a\nb\nc".toList, by decide, by decide⟩
    · rcases List.mem_singleton.mp hl' with rfl
      rw [show extractScriptPathCompile "echo hi".toList = none from by decide] at hp
      cases hp
  · exact (c1_inlining_behavior (parsePath "scripts".toList)
      [("scripts/long.sh".toList, "a\nb\nc\nd".toList)]).2 [] "./long.sh".toList
      ["echo hi".toList] "long.sh".toList "a\nb\nc\nd".toList
      (fun l hl => absurd hl (List.not_mem_nil l)) (by decide) (by decide) (by decide)

theorem createZipArtifact_ok_exists (fs : PyFS) (p : List Str) (art : ArchiveData)
    (h : createZipArtifact fs p = .ok art) : fsExists fs p = true := by
  cases hex : fsExists fs p
  · rw [createZipArtifact, hex] at h
    exact absurd h (by simp)
  · rfl

/-- C2, amended: a referenced script path absent from the script
source map, or one whose content is empty, aborts the enclosing
document's compilation with an error naming the offending path — the
error propagates out of `process_script_list`; artifact inlining
failures do **not** abort: an oversized payload and a missing artifact
source are caught inside `maybe_inline_artifact`, which returns
`(None, None)` so the pragma line stays in place. -/
theorem c2_error_propagation :
    (∀ path srcs, lookupSrc srcs path = none →
      readBashScript path srcs =
        .error ("Script not found in source map: ".toList ++ path)) ∧
    (∀ path srcs c, lookupSrc srcs path = some c → pyStrip c = [] →
      readBashScript path srcs = .error ("Script is empty: ".toList ++ path)) ∧
    (∀ (root : PyPath) (srcs : SourceMap) (pre : List Str) (line : Str)
        (post : List Str) (p e : Str),
      (∀ l ∈ pre, ∀ q, extractScriptPathCompile l = some q →
        ∃ c, readBashScript (resolveScriptKey root q) srcs = .ok c ∧
          (splitlinesPy c).length ≤ 3) →
      extractScriptPathCompile line = some p →
      readBashScript (resolveScriptKey root p) srcs = .error e →
      processScriptList (.strList (pre ++ line :: post)) root srcs = .error e) ∧
    (∀ (fs : PyFS) (cwd : List Str) (b64 : ArchiveData → Str)
        (byteLen : ArchiveData → Nat) (maxSize warnSize : Nat) (line : Str)
        (inputDir : PyPath) (pr : ArtifactPragma) (art : ArchiveData),
      parseArtifactPragma line = some pr →
      (pyResolve cwd inputDir).comps.isPrefixOf
          (pyResolve cwd (joinPath inputDir (parsePath pr.sourcePath))).comps = true →
      createZipArtifact fs
          (pyResolve cwd (joinPath inputDir (parsePath pr.sourcePath))).comps = .ok art →
      maxSize < byteLen art →
      maybeInlineArtifact fs cwd b64 byteLen maxSize warnSize line inputDir =
        (none, none)) ∧
    (∀ (fs : PyFS) (cwd : List Str) (b64 : ArchiveData → Str)
        (byteLen : ArchiveData → Nat) (maxSize warnSize : Nat) (line : Str)
        (inputDir : PyPath) (pr : ArtifactPragma),
      parseArtifactPragma line = some pr →
      fsExists fs (pyResolve cwd (joinPath inputDir (parsePath pr.sourcePath))).comps =
        false →
      maybeInlineArtifact fs cwd b64 byteLen maxSize warnSize line inputDir =
        (none, none)) := by
  refine ⟨?_, ?_, ?_, ?_, ?_⟩
  · intro path srcs h
    simp only [readBashScript, h]
  · intro path srcs c h hstrip
    simp only [readBashScript, h, hstrip]
    rfl
  · intro root srcs pre line post p e hpre hex hrd
    simp only [processScriptList, findLongScript_error root srcs pre line post p e hpre hex hrd]
  · intro fs cwd b64 byteLen maxSize warnSize line inputDir pr art hparse hcontain hcreate hsize
    have hexists := createZipArtifact_ok_exists fs _ art hcreate
    simp only [maybeInlineArtifact, hparse, hcontain, hexists, hcreate]
    rw [if_neg (by simp), if_neg (by simp), if_pos (by omega)]
  · intro fs cwd b64 byteLen maxSize warnSize line inputDir pr hparse hexists
    simp only [maybeInlineArtifact, hparse, hexists]
    by_cases hcontain : (pyResolve cwd inputDir).comps.isPrefixOf
        (pyResolve cwd (joinPath inputDir (parsePath pr.sourcePath))).comps
    · simp [hcontain]
    · simp [hcontain]

theorem c2_witness :
    readBashScript "scripts/missing.sh".toList [("scripts/s.sh".toList, "a".toList)] =
      .error ("Script not found in source map: ".toList ++ "scripts/missing.sh".toList) ∧
    processScriptList (.strList ["./missing.sh".toList]) (parsePath "scripts".toList)
        [("scripts/s.sh".toList, "a".toList)] =
      .error ("Script not found in source map: ".toList ++ "scripts/missing.sh".toList) ∧
    maybeInlineArtifact exArtifactFS [] exB64 exByteLen 5 3
      "# Pragma: inline-artifact ./data".toList exRoot = (none, none) := by
  refine ⟨?_, ?_, ?_⟩
  · exact c2_error_propagation.1 "scripts/missing.sh".toList
      [("scripts/s.sh".toList, "a".toList)] (by decide)
  · exact c2_error_propagation.2.2.1 (parsePath "scripts".toList)
      [("scripts/s.sh".toList, "a".toList)] [] "./missing.sh".toList []
      "missing.sh".toList ("Script not found in source map: ".toList ++
        "scripts/missing.sh".toList)
      (fun l hl => absurd hl (List.not_mem_nil l)) (by decide) (by decide)
  · exact c2_error_propagation.2.2.2.1 exArtifactFS [] exB64 exByteLen 5 3
      "# Pragma: inline-artifact ./data".toList exRoot
      { sourcePath := "./data".toList, outputPath := none, formatArg := none,
        stripArg := none }
      (ArchiveData.zipArchive [("data".toList, "hello".toList)])
      (by decide) (by decide) (by decide) (by decide)

/-- C3, amended: whatever `--format` the pragma requests, the embedded
payload is always the base64 encoding of the **zip** archive of the
source — with directory entries carrying paths relative to the
directory — while the shim's decode-and-extract command is the
format-specific one for the requested format; payload format and shim
command therefore disagree for the `tar.*` formats. -/
theorem c3_payload_and_shim :
    (∀ (fs : PyFS) (cwd : List Str) (b64 : ArchiveData → Str)
        (byteLen : ArchiveData → Nat) (maxSize warnSize : Nat) (line : Str)
        (inputDir : PyPath) (pr : ArtifactPragma) (entries : List (Str × Str)),
      parseArtifactPragma line = some pr →
      (pyResolve cwd inputDir).comps.isPrefixOf
          (pyResolve cwd (joinPath inputDir (parsePath pr.sourcePath))).comps = true →
      createZipArtifact fs
          (pyResolve cwd (joinPath inputDir (parsePath pr.sourcePath))).comps =
        .ok (.zipArchive entries) →
      byteLen (.zipArchive entries) ≤ maxSize →
      pr.formatArg.getD "zip".toList ∈ artifactFormats →
      ∃ ls, maybeInlineArtifact fs cwd b64 byteLen maxSize warnSize line inputDir =
          (some ls, some (pyResolve cwd (joinPath inputDir (parsePath pr.sourcePath)))) ∧
        ls.length = 6 ∧
        ls[1]? = some ("__B2G_ARTIFACT=".toList ++
          squoteChar :: (b64 (.zipArchive entries) ++ [squoteChar])) ∧
        ls[3]? = some (specExtractCmdFor (pr.formatArg.getD "zip".toList)
          (pr.outputPath.getD ("./".toList ++
            pathName (pyResolve cwd (joinPath inputDir (parsePath pr.sourcePath))))))) ∧
    (∀ (fs : PyFS) (p : List Str) (entries : List (Str × Str)),
      fsIsFile fs p = false →
      createZipArtifact fs p = .ok (.zipArchive entries) →
      ∀ e ∈ entries, ∃ fp c, (fp, c) ∈ fs.files ∧ p.isPrefixOf fp = true ∧ fp ≠ p ∧
        e = (strInter (fp.drop p.length), c)) := by
  constructor
  · intro fs cwd b64 byteLen maxSize warnSize line inputDir pr entries
      hparse hcontain hcreate hsize hfmt
    have hexists := createZipArtifact_ok_exists fs _ _ hcreate
    refine ⟨generateExtractionShim (b64 (.zipArchive entries))
        (pr.outputPath.getD ("./".toList ++
          pathName (pyResolve cwd (joinPath inputDir (parsePath pr.sourcePath)))))
        (pr.formatArg.getD "zip".toList) pr.sourcePath
        (formatSize (byteLen (.zipArchive entries))), ?_, ?_, ?_, ?_⟩
    · simp only [maybeInlineArtifact, hparse, hcontain, hexists, hcreate]
      rw [if_neg (by simp), if_neg (by simp), if_neg (by omega)]
    · rfl
    · rfl
    · show (generateExtractionShim _ _ _ _ _)[3]? = _
      simp only [artifactFormats, List.mem_cons, List.mem_singleton,
        List.not_mem_nil, or_false] at hfmt
      rcases hfmt with h | h | h | h <;>
        rw [h] <;> simp [generateExtractionShim, specExtractCmdFor]
  · intro fs p entries hnf hcreate
    have hexists := createZipArtifact_ok_exists fs _ _ hcreate
    rw [createZipArtifact, hexists] at hcreate
    simp only [Bool.not_true, Bool.false_eq_true, if_false, hnf] at hcreate
    cases hdir : fsIsDir fs p
    · rw [hdir] at hcreate
      exact absurd hcreate (by simp)
    · rw [hdir] at hcreate
      simp only [if_true, Except.ok.injEq, ArchiveData.zipArchive.injEq] at hcreate
      intro e he
      rw [← hcreate] at he
      rcases List.mem_filterMap.mp he with ⟨⟨fp, c⟩, hmem, heq⟩
      by_cases hcond : p.isPrefixOf fp = true ∧ fp ≠ p
      · rw [if_pos ⟨hcond.1, hcond.2⟩] at heq
        cases heq
        exact ⟨fp, c, hmem, hcond.1, hcond.2, rfl⟩
      · rw [if_neg (by
          intro hc
          exact hcond ⟨hc.1, hc.2⟩)] at heq
        exact absurd heq (by simp)

theorem c3_witness :
    (maybeInlineArtifact exArtifactFS [] exB64 exByteLen 100 50
      "# Pragma: inline-artifact ./data --format=tar.gz".toList exRoot).1 ≠ none := by
  obtain ⟨ls, hls, -, -, -⟩ := c3_payload_and_shim.1 exArtifactFS [] exB64 exByteLen 100 50
    "# Pragma: inline-artifact ./data --format=tar.gz".toList exRoot
    { sourcePath := "./data".toList, outputPath := none,
      formatArg := some "tar.gz".toList, stripArg := none }
    [("data".toList, "hello".toList)]
    (by decide) (by decide) (by decide) (by decide) (by decide)
  rw [hls]
  simp

theorem isScriptTok_sh (t : Str) (hrep : replaceChar '\\' '/' t = t)
    (hsuf : pathSuffix (parsePath t) = ".sh".toList)
    (hdash : t.head? ≠ some '-') : isScriptTok t = true := by
  unfold isScriptTok
  rw [hrep, hsuf]
  have h1 : (t.head? == some '-') = false := beq_eq_false_iff_ne.mpr hdash
  rw [h1]
  decide

/-- C9, amended: the two extractors are not the same function (they
disagree for example on `a.ps1`), but they agree — both returning the
same normalized path — on any command line that both tokenizers split
into a single already-normalized `.sh` token with no backslash, no
leading dash and no leading assignment, optionally preceded by one of
the executors `bash`, `sh` or `source` recognized by both. -/
theorem c9_restricted_agreement :
    (∀ (cmd t : Str),
      splitCmd cmd = some [t] → pyShlexSplit cmd = some [t] →
      replaceChar '\\' '/' t = t → pathStr (parsePath t) = t →
      pathSuffix (parsePath t) = ".sh".toList →
      t.head? ≠ some '-' → envAssignMatch t = false →
      extractScriptPathUtils cmd = some t ∧ extractScriptPathCompile cmd = some t) ∧
    (∀ (cmd e t : Str),
      splitCmd cmd = some [e, t] → pyShlexSplit cmd = some [e, t] →
      e ∈ compileExecutors →
      replaceChar '\\' '/' t = t → pathStr (parsePath t) = t →
      pathSuffix (parsePath t) = ".sh".toList →
      t.head? ≠ some '-' →
      extractScriptPathUtils cmd = some t ∧ extractScriptPathCompile cmd = some t) := by
  constructor
  · intro cmd t hs1 hs2 hrep hnorm hsuf hdash henv
    constructor
    · simp only [extractScriptPathUtils, hs1]
      rw [if_neg (by simp [henv]), if_pos (isScriptTok_sh t hrep hsuf hdash)]
      unfold toPosix
      rw [hrep, hnorm]
    · simp only [extractScriptPathCompile, hs2, List.foldl_cons, List.foldl_nil,
        extractCompileStep]
      rw [if_pos hsuf, hnorm, hrep]
      simp
  · intro cmd e t hs1 hs2 hexec hrep hnorm hsuf hdash
    have hscript := isScriptTok_sh t hrep hsuf hdash
    have hpos : toPosix t = t := by
      unfold toPosix
      rw [hrep, hnorm]
    simp only [compileExecutors, List.mem_cons, List.mem_singleton,
      List.not_mem_nil, or_false] at hexec
    rcases hexec with rfl | rfl | rfl
    · constructor
      · simp only [extractScriptPathUtils, hs1]
        rw [if_neg (by decide), if_pos (by rw [hscript]; decide)]
        exact congrArg some hpos
      · simp only [extractScriptPathCompile, hs2, List.foldl_cons, List.foldl_nil]
        rw [show extractCompileStep (none, 0) "bash".toList = (none, 0) from by decide]
        simp only [extractCompileStep]
        rw [if_pos hsuf, hnorm, hrep]
        simp
    · constructor
      · simp only [extractScriptPathUtils, hs1]
        rw [if_neg (by decide), if_pos (by rw [hscript]; decide)]
        exact congrArg some hpos
      · simp only [extractScriptPathCompile, hs2, List.foldl_cons, List.foldl_nil]
        rw [show extractCompileStep (none, 0) "sh".toList = (none, 0) from by decide]
        simp only [extractCompileStep]
        rw [if_pos hsuf, hnorm, hrep]
        simp
    · constructor
      · simp only [extractScriptPathUtils, hs1]
        rw [if_neg (by decide)]
        rw [if_neg (by rw [hscript]; decide), if_pos (by rw [hscript]; decide)]
        exact congrArg some hpos
      · simp only [extractScriptPathCompile, hs2, List.foldl_cons, List.foldl_nil]
        rw [show extractCompileStep (none, 0) "source".toList = (none, 0) from by decide]
        simp only [extractCompileStep]
        rw [if_pos hsuf, hnorm, hrep]
        simp

theorem c9_witness :
    (extractScriptPathUtils "x.sh".toList = some "x.sh".toList ∧
      extractScriptPathCompile "x.sh".toList = some "x.sh".toList) ∧
    (extractScriptPathUtils "bash dir/x.sh".toList = some "dir/x.sh".toList ∧
      extractScriptPathCompile "bash dir/x.sh".toList = some "dir/x.sh".toList) :=
  ⟨c9_restricted_agreement.1 "x.sh".toList "x.sh".toList (by decide) (by decide)
      (by decide) (by decide) (by decide) (by decide) (by decide),
   c9_restricted_agreement.2 "bash dir/x.sh".toList "bash".toList "dir/x.sh".toList
      (by decide) (by decide) (by decide) (by decide) (by decide) (by decide) (by decide)⟩

theorem takeWhile_append_all {α : Type} (p : α → Bool) (l l' : List α)
    (h : ∀ c ∈ l, p c = true) : (l ++ l').takeWhile p = l ++ l'.takeWhile p := by
  induction l with
  | nil => rfl
  | cons a t ih =>
    rw [List.cons_append, List.takeWhile_cons, if_pos (h a (List.mem_cons_self a t)),
      ih (fun c hc => h c (List.mem_cons_of_mem _ hc))]
    rfl

theorem dropWhile_head_false {α : Type} (p : α → Bool) (l : List α) (c : α) (t : List α)
    (h : l.dropWhile p = c :: t) : p c = false := by
  induction l with
  | nil => simp at h
  | cons a l' ih =>
    rw [List.dropWhile_cons] at h
    by_cases hpa : p a = true
    · rw [if_pos hpa] at h
      exact ih h
    · rw [if_neg hpa] at h
      cases h
      exact Bool.eq_false_iff.mpr hpa

theorem identStart_ne_eq (c : Char) (h : identStartChar c = true) : c ≠ '=' := by
  intro hc
  subst hc
  exact absurd h (by decide)

theorem identChar_ne_eq (c : Char) (h : identChar c = true) : c ≠ '=' := by
  intro hc
  subst hc
  exact absurd h (by decide)

theorem parseIdentEq_eq_split (s : Str) :
    parseIdentEq s =
      (if (s.contains '=' && isIdentifierTok (s.takeWhile (fun c => c != '='))) = true then
        some (s.takeWhile (fun c => c != '='),
          s.drop ((s.takeWhile (fun c => c != '=')).length + 1))
      else none) := by
  rcases s with _ | ⟨c, rest⟩
  · rfl
  · by_cases hstart : identStartChar c = true
    · have hcne : c ≠ '=' := identStart_ne_eq c hstart
      have hkey : (c :: rest).takeWhile (fun c => c != '=') =
          c :: rest.takeWhile (fun c => c != '=') := by
        rw [List.takeWhile_cons, if_pos (by simp [hcne])]
      have hsplitw := List.takeWhile_append_dropWhile identChar rest
      have hr1 : ∀ x ∈ rest.takeWhile identChar, (x != '=') = true := by
        intro x hx
        simpa using identChar_ne_eq x (List.mem_takeWhile_imp hx)
      rcases hd : rest.dropWhile identChar with _ | ⟨d0, d'⟩
      · have hrest : rest.takeWhile identChar = rest := by
          rw [hd, List.append_nil] at hsplitw
          exact hsplitw
        have hcont : (c :: rest).contains '=' = false := by
          have hnoeq : ('=' : Char) ∉ (c :: rest) := by
            intro hm
            rcases List.mem_cons.mp hm with h | h
            · exact hcne h.symm
            · rw [← hrest] at h
              exact absurd (List.mem_takeWhile_imp h) (by decide)
          simpa using hnoeq
        have hLHS : parseIdentEq (c :: rest) = none := by
          simp only [parseIdentEq, if_pos hstart, hd]
        rw [hLHS, if_neg (by rw [hcont]; simp)]
      · have hresteq : rest = rest.takeWhile identChar ++ d0 :: d' := by
          rw [← hd]
          exact hsplitw.symm
        have hd0 : identChar d0 = false := dropWhile_head_false identChar rest d0 d' hd
        by_cases hd0eq : d0 = '='
        · subst hd0eq
          have hkeyr : rest.takeWhile (fun c => c != '=') = rest.takeWhile identChar := by
            conv_lhs => rw [hresteq]
            rw [takeWhile_append_all _ _ _ hr1, List.takeWhile_cons,
              if_neg (by simp), List.append_nil]
          have hcont : (c :: rest).contains '=' = true := by
            have : ('=' : Char) ∈ c :: rest := by
              rw [hresteq]
              exact List.mem_cons_of_mem _ (List.mem_append_right _ (List.mem_cons_self _ _))
            simpa using this
          have hident : isIdentifierTok ((c :: rest).takeWhile (fun c => c != '=')) = true := by
            rw [hkey, hkeyr]
            simp only [isIdentifierTok, hstart, Bool.true_and]
            rw [List.all_eq_true]
            intro x hx
            exact List.mem_takeWhile_imp hx
          have hdrop : (c :: rest).drop
              (((c :: rest).takeWhile (fun c => c != '=')).length + 1) = d' := by
            rw [hkey, hkeyr]
            simp only [List.length_cons]
            rw [List.drop_succ_cons]
            set r1 := rest.takeWhile identChar with hr1def
            rw [show rest = r1 ++ '=' :: d' from hresteq]
            have hda : (r1 ++ '=' :: d').drop (r1.length + 1) = ('=' :: d').drop 1 :=
              List.drop_append 1
            simpa using hda
          have hLHS : parseIdentEq (c :: rest) =
              some (c :: rest.takeWhile identChar, d') := by
            simp only [parseIdentEq, if_pos hstart, hd]
            simp
          rw [hLHS, if_pos (by rw [hcont, hident]; rfl), hdrop, hkey, hkeyr]
        · have hkeyr : rest.takeWhile (fun c => c != '=') =
              rest.takeWhile identChar ++ d0 :: d'.takeWhile (fun c => c != '=') := by
            conv_lhs => rw [hresteq]
            rw [takeWhile_append_all _ _ _ hr1, List.takeWhile_cons,
              if_pos (by simp [hd0eq])]
          have hident : isIdentifierTok ((c :: rest).takeWhile (fun c => c != '=')) = false := by
            rw [hkey, hkeyr]
            simp only [isIdentifierTok, hstart, Bool.true_and]
            cases hall : (rest.takeWhile identChar ++
                d0 :: d'.takeWhile (fun c => c != '=')).all identChar
            · rfl
            · exfalso
              have := List.all_eq_true.mp hall d0
                (List.mem_append_right _ (List.mem_cons_self _ _))
              rw [hd0] at this
              exact absurd this (by simp)
          have hLHS : parseIdentEq (c :: rest) = none := by
            simp only [parseIdentEq, if_pos hstart, hd]
            rw [if_neg hd0eq]
          rw [hLHS, if_neg (by rw [hident]; simp)]
    · have hLHS : parseIdentEq (c :: rest) = none := by
        simp only [parseIdentEq, if_neg hstart]
      by_cases hce : c = '='
      · subst hce
        have hkey0 : (('=' : Char) :: rest).takeWhile (fun c => c != '=') = [] := by
          rw [List.takeWhile_cons, if_neg (by simp)]
        rw [hLHS, if_neg (by rw [hkey0]; simp [isIdentifierTok])]
      · have hkey : (c :: rest).takeWhile (fun c => c != '=') =
            c :: rest.takeWhile (fun c => c != '=') := by
          rw [List.takeWhile_cons, if_pos (by simp [hce])]
        rw [hLHS, if_neg (by
          rw [hkey]
          simp only [isIdentifierTok, hstart]
          simp [Bool.eq_false_iff.mpr hstart])]

theorem parseEnvLine_eq_body (line : Str) :
    parseEnvLine line = parseIdentEq
      (if line.take 6 = "export".toList ∧ (line.drop 6).head?.any pyWS then
        (line.drop 6).dropWhile pyWS
      else line) := by
  unfold parseEnvLine
  by_cases h : line.take 6 = "export".toList ∧ (line.drop 6).head?.any pyWS
  · rw [if_pos h, if_pos h]
  · rw [if_neg h, if_neg h]

/-- C8, amended: `parse_env_file` coincides, on every input, with the
amended line specification: after trimming, a non-comment line with an
optional `export ` prefix removed splits at its first `=`; the part
before must be an identifier `[A-Za-z_][A-Za-z0-9_]*`, and the bound
value is the remainder, whitespace-trimmed, with one pair of
surrounding quote characters stripped (a single quote character
becomes empty); later bindings of the same key overwrite earlier ones
in place; all other lines contribute no binding. -/
theorem c8_env_parse_amended (content : Str) :
    parseEnvFile content = amendedEnvParse content := by
  unfold parseEnvFile amendedEnvParse
  apply List.foldl_ext
  intro vars rawLine _
  simp only [amendedEnvBinding]
  by_cases hskip : ((pyStrip rawLine).isEmpty || (pyStrip rawLine).head? == some '#') = true
  · rw [if_pos hskip, if_pos hskip]
  · rw [if_neg hskip, if_neg hskip]
    rw [parseEnvLine_eq_body, parseIdentEq_eq_split]
    set body := (if (pyStrip rawLine).take 6 = "export".toList ∧
        ((pyStrip rawLine).drop 6).head?.any pyWS then
      ((pyStrip rawLine).drop 6).dropWhile pyWS
    else pyStrip rawLine) with hbody
    by_cases hcond : (body.contains '=' &&
        isIdentifierTok (body.takeWhile (fun c => c != '='))) = true
    · rw [if_pos hcond, if_pos hcond]
    · rw [if_neg hcond, if_neg hcond]

theorem splitSlash_no_slash (c : Str) (h : '/' ∉ c) : splitSlash c = [c] := by
  induction c with
  | nil => rfl
  | cons a t ih =>
    have ha : a ≠ '/' := fun hc => h (hc ▸ List.mem_cons_self a t)
    have ht := ih (fun hm => h (List.mem_cons_of_mem a hm))
    rw [splitSlash, if_neg ha, ht]

theorem splitSlash_cons_append (c s : Str) (h : '/' ∉ c) :
    splitSlash (c ++ '/' :: s) = c :: splitSlash s := by
  induction c with
  | nil => rw [List.nil_append, splitSlash, if_pos rfl]
  | cons a t ih =>
    have ha : a ≠ '/' := fun hc => h (hc ▸ List.mem_cons_self a t)
    have ht := ih (fun hm => h (List.mem_cons_of_mem a hm))
    rw [List.cons_append, splitSlash, if_neg ha, ht]

theorem splitSlash_strInter (cs : List Str) (hne : cs ≠ [])
    (h : ∀ c ∈ cs, '/' ∉ c) : splitSlash (strInter cs) = cs := by
  induction cs with
  | nil => exact absurd rfl hne
  | cons c cs' ih =>
    rcases cs' with _ | ⟨c2, cs''⟩
    · exact splitSlash_no_slash c (h c (List.mem_cons_self _ _))
    · rw [show strInter (c :: c2 :: cs'') = c ++ '/' :: strInter (c2 :: cs'') from rfl,
        splitSlash_cons_append c _ (h c (List.mem_cons_self _ _)),
        ih (by simp) (fun x hx => h x (List.mem_cons_of_mem _ hx))]

theorem validComps_filter (cs : List Str) (hv : validComps cs) :
    cs.filter (fun c => !c.isEmpty && c ≠ ['.']) = cs := by
  apply List.filter_eq_self.mpr
  intro c hc
  rcases hv c hc with ⟨h1, h2, _⟩
  simp [List.isEmpty_iff, h1, h2]

theorem strInter_head_ne_slash (c : Str) (cs : List Str) (hne : c ≠ [])
    (hns : '/' ∉ c) : (strInter (c :: cs)).head? ≠ some '/' := by
  have hh : (strInter (c :: cs)).head? = c.head? := by
    rcases cs with _ | ⟨c2, cs'⟩
    · rfl
    · rw [show strInter (c :: c2 :: cs') = c ++ '/' :: strInter (c2 :: cs') from rfl]
      rcases c with _ | ⟨a, t⟩
      · exact absurd rfl hne
      · rfl
  rw [hh]
  rcases c with _ | ⟨a, t⟩
  · exact absurd rfl hne
  · intro hc
    simp only [List.head?_cons, Option.some.injEq] at hc
    exact hns (hc ▸ List.mem_cons_self a t)

theorem parsePath_pathStr (p : PyPath) (hv : validComps p.comps) :
    parsePath (pathStr p) = p := by
  rcases p with ⟨abs, comps⟩
  cases abs
  · rcases comps with _ | ⟨c, cs⟩
    · decide
    · have hcv : validComp c := hv c (List.mem_cons_self _ _)
      have hps : pathStr { absolute := false, comps := c :: cs } = strInter (c :: cs) := by
        rw [pathStr]
        simp
      rw [hps]
      unfold parsePath
      rw [splitSlash_strInter (c :: cs) (by simp) (fun x hx => (hv x hx).2.2),
        validComps_filter _ hv]
      simp only [PyPath.mk.injEq, and_true]
      exact beq_eq_false_iff_ne.mpr (strInter_head_ne_slash c cs hcv.1 hcv.2.2)
  · rcases comps with _ | ⟨c, cs⟩
    · decide
    · have hps : pathStr { absolute := true, comps := c :: cs } =
          '/' :: strInter (c :: cs) := rfl
      rw [hps]
      unfold parsePath
      rw [show splitSlash ('/' :: strInter (c :: cs)) =
          [] :: splitSlash (strInter (c :: cs)) from by rw [splitSlash]; rw [if_pos rfl],
        splitSlash_strInter (c :: cs) (by simp) (fun x hx => (hv x hx).2.2),
        List.filter_cons_of_neg (by simp), validComps_filter _ hv]
      simp only [PyPath.mk.injEq, and_true]
      rfl

theorem rfindDot_head (n : Str) (i : Nat) (h : rfindDot n = some i) :
    i < n.length ∧ (n.drop i).head? = some '.' := by
  induction n generalizing i with
  | nil => simp [rfindDot] at h
  | cons c rest ih =>
    rw [rfindDot] at h
    rcases hr : rfindDot rest with _ | j
    · rw [hr] at h
      by_cases hc : c = '.'
      · rw [if_pos hc] at h
        cases h
        subst hc
        exact ⟨by simp, rfl⟩
      · rw [if_neg hc] at h
        exact absurd h (by simp)
    · rw [hr] at h
      cases h
      rcases ih j hr with ⟨h1, h2⟩
      refine ⟨by simpa using Nat.succ_lt_succ h1, ?_⟩
      rw [List.drop_succ_cons]
      exact h2

theorem mem_nameSuffix (n : Str) (c : Char) (h : c ∈ nameSuffix n) : c ∈ n := by
  unfold nameSuffix at h
  rcases hr : rfindDot n with _ | i
  · simp only [hr] at h
    simp at h
  · simp only [hr] at h
    by_cases hcond : 0 < i ∧ i < n.length - 1
    · rw [if_pos hcond] at h
      exact List.drop_subset i n h
    · rw [if_neg hcond] at h
      simp at h

theorem nameSuffix_decomp (n : Str) :
    nameSuffix n = [] ∨
      ((nameSuffix n).head? = some '.' ∧
        n.take (n.length - (nameSuffix n).length) ++ nameSuffix n = n) := by
  unfold nameSuffix
  rcases hr : rfindDot n with _ | i
  · left
    simp only [hr]
  · simp only [hr]
    by_cases hcond : 0 < i ∧ i < n.length - 1
    · right
      rw [if_pos hcond]
      rcases rfindDot_head n i hr with ⟨hlt, hhd⟩
      refine ⟨hhd, ?_⟩
      rw [List.length_drop]
      have heq : n.length - (n.length - i) = i := by omega
      rw [heq, List.take_append_drop]
    · left
      rw [if_neg hcond]

theorem withSuffix_hash (p : PyPath) (hn : pathName p ≠ [])
    (hnoslash : '/' ∉ pathName p) :
    pyWithSuffix p (pathSuffix p ++ ".hash".toList) =
      .ok { p with comps := p.comps.dropLast ++ [pathName p ++ ".hash".toList] } := by
  have hsufmem : '/' ∉ pathSuffix p ++ ".hash".toList := by
    intro hm
    rcases List.mem_append.mp hm with h | h
    · exact hnoslash (mem_nameSuffix _ _ h)
    · exact absurd h (by decide)
  have hhd : (pathSuffix p ++ ".hash".toList).head? = some '.' := by
    unfold pathSuffix
    rcases hns : nameSuffix (pathName p) with _ | ⟨a, t⟩
    · rfl
    · rcases nameSuffix_decomp (pathName p) with h | ⟨hh, _⟩
      · rw [h] at hns
        cases hns
      · rw [hns] at hh
        simp only [List.head?_cons, Option.some.injEq] at hh
        subst hh
        rfl
  have hne1 : pathSuffix p ++ ".hash".toList ≠ ['.'] := by
    intro hc
    have hlen := congrArg List.length hc
    simp [List.length_append] at hlen
  have hnew : (if (nameSuffix (pathName p)).isEmpty then pathName p
      else (pathName p).take ((pathName p).length - (nameSuffix (pathName p)).length)) ++
      (pathSuffix p ++ ".hash".toList) = pathName p ++ ".hash".toList := by
    rcases nameSuffix_decomp (pathName p) with h | ⟨_, hcat⟩
    · rw [show pathSuffix p = nameSuffix (pathName p) from rfl, h]
      simp
    · by_cases hemp : (nameSuffix (pathName p)).isEmpty = true
      · rw [if_pos hemp, show pathSuffix p = nameSuffix (pathName p) from rfl,
          List.isEmpty_iff.mp hemp]
        simp
      · rw [if_neg hemp, show pathSuffix p = nameSuffix (pathName p) from rfl,
          ← List.append_assoc, hcat]
  simp only [pyWithSuffix]
  rw [if_neg (by simpa using hsufmem), if_neg (by
      intro hcontra
      have hcontra2 : (decide ((pathSuffix p ++ ".hash".toList).head? ≠ some '.') ||
          decide (pathSuffix p ++ ".hash".toList = ['.'])) = true :=
        (Bool.and_eq_true_iff.mp hcontra).2
      rcases Bool.or_eq_true_iff.mp hcontra2 with h3 | h3
      · exact (of_decide_eq_true h3) hhd
      · exact hne1 (of_decide_eq_true h3)),
    if_neg (by simpa using hn), hnew]

theorem strInter_append_last (cs : List Str) (x : Str) :
    strInter (cs ++ [x]) = (if cs.isEmpty then [] else strInter cs ++ ['/']) ++ x := by
  induction cs with
  | nil => simp [strInter]
  | cons c cs' ih =>
    rcases cs' with _ | ⟨c2, cs''⟩
    · simp [strInter]
    · rw [List.cons_append]
      rw [show strInter (c :: ((c2 :: cs'') ++ [x])) =
          c ++ '/' :: strInter ((c2 :: cs'') ++ [x]) from by
        rw [List.cons_append]; rfl]
      rw [ih]
      simp [strInter, List.append_assoc]

theorem pathStr_append_last (abs : Bool) (front : List Str) (y : Str) :
    pathStr { absolute := abs, comps := front ++ [y] } =
      ((if abs then ['/'] else []) ++
        (if front.isEmpty then [] else strInter front ++ ['/'])) ++ y := by
  cases abs
  · rw [pathStr]
    simp only [Bool.false_eq_true, if_false]
    rw [if_neg (by simp), strInter_append_last]
    simp
  · rw [pathStr]
    simp only [if_true]
    rw [strInter_append_last]
    simp

/-- C10: for every output file strictly under the output base (with
well-formed path components), the centralized hash-file path
round-trips — deriving the source file back from the hash file path
recovers exactly the output file. -/
theorem c10_hash_roundtrip (f b rel : PyPath)
    (hrel : relativeTo f b = some rel) (hne : rel.comps ≠ [])
    (hvf : validComps f.comps) (hvb : validComps b.comps) :
    ∃ h, getOutputHashPath f b = .ok h ∧ getSourceFileFromHash h b = f := by
  have hrel0 := hrel
  unfold relativeTo at hrel
  split at hrel
  case isFalse hc => exact absurd hrel (by simp)
  case isTrue hcond =>
  cases hrel
  set rc := f.comps.drop b.comps.length with hrcdef
  have hpref : b.comps <+: f.comps := ( List.isPrefixOf_iff_prefix).mp hcond.2
  have hfc : b.comps ++ rc = f.comps := List.prefix_iff_eq_append.mp hpref
  have hne' : rc ≠ [] := hne
  have hvrc : validComps rc := fun c hc => hvf c (List.drop_subset _ _ hc)
  have hnmem : rc.getLast hne' ∈ rc := List.getLast_mem hne'
  have hnv : validComp (rc.getLast hne') := hvrc _ hnmem
  have hpn : pathName { absolute := false, comps := rc } = rc.getLast hne' := by
    unfold pathName
    rw [List.getLast?_eq_getLast _ hne']
    rfl
  set N := pathName { absolute := false, comps := rc } with hN
  have hga : getOutputHashPath f b = .ok
      { absolute := b.absolute,
        comps := (b.comps ++ hashDirComps) ++ (rc.dropLast ++ [N ++ ".hash".toList]) } := by
    simp only [getOutputHashPath, hrel0]
    rw [withSuffix_hash _ (by rw [← hN, hpn]; exact hnv.1) (by rw [← hN, hpn]; exact hnv.2.2)]
    simp only [joinPath]
    simp
  refine ⟨_, hga, ?_⟩
  set front := b.comps ++ (hashDirComps ++ rc.dropLast) with hfront
  have hassoc : (b.comps ++ hashDirComps) ++ (rc.dropLast ++ [N ++ ".hash".toList]) =
      front ++ [N ++ ".hash".toList] := by
    rw [hfront]
    simp [List.append_assoc]
  rw [hassoc]
  simp only [getSourceFileFromHash]
  rw [pathStr_append_last]
  set P := ((if b.absolute then ['/'] else []) ++
      (if front.isEmpty then [] else strInter front ++ ['/'])) with hP
  have hsfx : ".hash".toList <:+ P ++ (N ++ ".hash".toList) := by
    rw [← List.append_assoc]
    exact List.suffix_append _ _
  rw [if_pos (List.isSuffixOf_iff_suffix.mpr hsfx)]
  have htake : (P ++ (N ++ ".hash".toList)).take
      ((P ++ (N ++ ".hash".toList)).length - 5) = P ++ N := by
    rw [← List.append_assoc]
    have hlen : ((P ++ N) ++ ".hash".toList).length = (P ++ N).length + 5 := by
      rw [List.length_append]
      rfl
    rw [hlen, Nat.add_sub_cancel, List.take_left]
  rw [htake]
  have hvfrontN : validComps (front ++ [N]) := by
    intro c hc
    rcases List.mem_append.mp hc with h | h
    · rw [hfront] at h
      rcases List.mem_append.mp h with h1 | h1
      · exact hvb c h1
      · rcases List.mem_append.mp h1 with h2 | h2
        · simp only [hashDirComps, List.mem_cons, List.mem_singleton,
            List.not_mem_nil, or_false] at h2
          rcases h2 with rfl | rfl
          · exact ⟨by decide, by decide, by decide⟩
          · exact ⟨by decide, by decide, by decide⟩
        · exact hvrc c (List.dropLast_subset _ h2)
    · rcases List.mem_singleton.mp h with rfl
      rw [hpn]
      exact hnv
  have hPN : P ++ N = pathStr { absolute := b.absolute, comps := front ++ [N] } :=
    (pathStr_append_last b.absolute front N).symm
  rw [hPN, parsePath_pathStr _ hvfrontN]
  have hfrontsplit : front ++ [N] = (b.comps ++ hashDirComps) ++ (rc.dropLast ++ [N]) := by
    rw [hfront]
    simp [List.append_assoc]
  have hrt : relativeTo { absolute := b.absolute, comps := front ++ [N] }
      (joinPath b { absolute := false, comps := hashDirComps }) =
      some { absolute := false, comps := rc.dropLast ++ [N] } := by
    rw [show joinPath b { absolute := false, comps := hashDirComps } =
        { absolute := b.absolute, comps := b.comps ++ hashDirComps } from rfl]
    unfold relativeTo
    rw [hfrontsplit,
      if_pos ⟨rfl, ( List.isPrefixOf_iff_prefix).mpr (List.prefix_append _ _)⟩]
    simp [List.drop_left]
  rw [hrt]
  have hlast : rc.dropLast ++ [N] = rc := by
    rw [hpn]
    exact List.dropLast_append_getLast hne'
  rw [show (match some { absolute := false, comps := rc.dropLast ++ [N] } with
      | some rel => joinPath b rel
      | none => { absolute := b.absolute, comps := front ++ [N] }) =
      joinPath b { absolute := false, comps := rc.dropLast ++ [N] } from rfl]
  rw [hlast,
    show joinPath b { absolute := false, comps := rc } =
      { absolute := b.absolute, comps := b.comps ++ rc } from rfl, hfc]
  rcases f with ⟨fa, fc⟩
  simp only [PyPath.mk.injEq]
  exact ⟨hcond.1.symm, trivial⟩

theorem c10_witness :
    getOutputHashPath (parsePath "out/ci/deploy.yml".toList) (parsePath "out".toList) =
      .ok (parsePath "out/.bash2gitlab/output_hashes/ci/deploy.yml.hash".toList) ∧
    getSourceFileFromHash
        (parsePath "out/.bash2gitlab/output_hashes/ci/deploy.yml.hash".toList)
        (parsePath "out".toList) = parsePath "out/ci/deploy.yml".toList := by
  obtain ⟨h, h1, h2⟩ := c10_hash_roundtrip (parsePath "out/ci/deploy.yml".toList)
    (parsePath "out".toList)
    { absolute := false, comps := ["ci".toList, "deploy.yml".toList] }
    (by decide) (by decide) (by unfold validComps validComp; decide)
    (by unfold validComps validComp; decide)
  have hcomp : getOutputHashPath (parsePath "out/ci/deploy.yml".toList)
      (parsePath "out".toList) =
      .ok (parsePath "out/.bash2gitlab/output_hashes/ci/deploy.yml.hash".toList) := by
    decide
  rw [hcomp] at h1
  cases h1
  exact ⟨hcomp, h2⟩
